import Mathlib

/-!
# FileFlow-Manager: a shallow embedding of `filesystem_tool.c`

C strings are lists of characters (the terminating NUL is implicit), a `NULL`
pointer is `none`.  The file system is a finite table from path names to
nodes; every libc or system call the program makes is given a small model
below, and everything the program cannot control (permission errors, I/O
errors, cross-device renames, the entries `nftw` comes across and their
order) is an explicit parameter.
-/

namespace FileFlow

/-! ## Strings and the libc string functions used by the program -/

/-- A NUL-terminated C string, without its terminator. -/
abbrev CStr := List Char

/-- The platform constant `PATH_MAX` of `<limits.h>` (4096 on Linux). -/
def PATH_MAX : Nat := 4096

/-- The libc function `strlen`. -/
def strlen (s : CStr) : Nat := s.length

/-- The libc function `strcmp`: zero exactly when the strings agree, negative or positive
according to the first pair of differing characters.  The C standard fixes only the sign
of a non-zero result; the characters of a `CStr` are non-NUL, so a string that ends first
compares smaller. -/
def strcmp : CStr → CStr → Int
  | [], [] => 0
  | [], _ :: _ => -1
  | _ :: _, [] => 1
  | a :: as, b :: bs => if a = b then strcmp as bs else (a.toNat : Int) - (b.toNat : Int)

/-- The libc function `strncmp`: as `strcmp`, but looks at no more than `n` characters. -/
def strncmp : CStr → CStr → Nat → Int
  | _, _, 0 => 0
  | [], [], _ + 1 => 0
  | [], _ :: _, _ + 1 => -1
  | _ :: _, [], _ + 1 => 1
  | a :: as, b :: bs, n + 1 =>
    if a = b then strncmp as bs n else (a.toNat : Int) - (b.toNat : Int)

/-- The libc function `strrchr` for a character other than NUL: the suffix of `s` that starts
at the last occurrence of `c`, or `none` (a null pointer) when `c` does not occur. -/
def strrchr : CStr → Char → Option CStr
  | [], _ => none
  | a :: as, c =>
    match strrchr as c with
    | some r => some r
    | none => if a = c then some (a :: as) else none

/-- Drops the trailing characters of `s` that satisfy `p`. -/
def dropTrailing (p : Char → Bool) (s : CStr) : CStr :=
  (s.reverse.dropWhile p).reverse

/-- The libc function `dirname` (POSIX, with the glibc treatment of a leading `//`): the path
without its last component and without the slashes that separate it; `.` when the path has
no directory part, `/` when the directory part is the root. -/
def dirname (path : CStr) : CStr :=
  let stripped := dropTrailing (fun c => c == '/') path
  if stripped = [] then
    if path = [] then ['.'] else if path = ['/', '/'] then ['/', '/'] else ['/']
  else
    let body := dropTrailing (fun c => c != '/') stripped
    if body = [] then ['.']
    else
      let d := dropTrailing (fun c => c == '/') body
      if d = [] then (if body = ['/', '/'] then ['/', '/'] else ['/']) else d

/-- The component of a path after its last `/` (the whole path when it has no `/`). -/
def lastComponent : CStr → CStr
  | [] => []
  | a :: as => if '/' ∈ as then lastComponent as else if a = '/' then as else a :: as

/-! ## Pure helpers of the program -/

/-- Source `validate_extension`: no extension, or one of `.c`, `.txt`, `.pdf`. -/
def validate_extension (ext : Option CStr) : Bool :=
  match ext with
  | none => true
  | some ext =>
    strcmp ext ".c".toList == 0 || strcmp ext ".txt".toList == 0 || strcmp ext ".pdf".toList == 0

/-- Source `has_extension`. -/
def has_extension (filename : Option CStr) (ext : Option CStr) : Bool :=
  match ext with
  | none => true
  | some ext =>
    match filename with
    | none => false
    | some filename =>
      match strrchr filename '.' with
      | none => false
      | some file_ext => strcmp file_ext ext == 0

/-! ## The file system and the system calls the program makes -/

/-- A file-system node: a regular file with its bytes, or a directory. -/
inductive Node where
  | file (content : List Char)
  | dir
  deriving DecidableEq, Repr

/-- The file system: a table from keys to nodes.  A key is an absolute path name in normal
form: `/` for the root, otherwise a slash before each component, with no `.` or `..`
component.  Path names are turned into keys by `resolve`, which walks the components as
the kernel does.  The table holds regular files and directories only; symbolic links and
hard links are outside the model. -/
abbrev FS := List (CStr × Node)

/-- The node stored under a key, if any. -/
def fs_find : FS → CStr → Option Node
  | [], _ => none
  | (q, n) :: rest, p => if q = p then some n else fs_find rest p

/-- Removes a key from the table. -/
def fs_erase (fs : FS) (p : CStr) : FS :=
  fs.filter (fun e => decide (e.1 ≠ p))

/-- Stores a node under a key, replacing what was there. -/
def fs_put : FS → CStr → Node → FS
  | [], p, n => [(p, n)]
  | (q, m) :: rest, p, n => if q = p then (p, n) :: rest else (q, m) :: fs_put rest p n

/-- Whether `s` begins with `pre`. -/
def starts_with : CStr → CStr → Bool
  | [], _ => true
  | _ :: _, [] => false
  | a :: pre, b :: s => a == b && starts_with pre s

/-- The components of the rest of a path name, `cur` being the component read so far. -/
def components_from : CStr → CStr → List CStr
  | [], cur => if cur = [] then [] else [cur]
  | c :: rest, cur =>
    if c = '/' then
      if cur = [] then components_from rest [] else cur :: components_from rest []
    else components_from rest (cur ++ [c])

/-- The components of a path name: the non-empty pieces between its slashes. -/
def components (p : CStr) : List CStr := components_from p []

/-- The key of the node reached from the root through the given components. -/
def key_of (comps : List CStr) : CStr :=
  if comps = [] then ['/'] else comps.foldr (fun c acc => '/' :: (c ++ acc)) []

/-- The keys that name a directory throughout the run: the root and the working directory
of the process (an absolute path name).  The program never changes its working directory;
a run that removes it is outside the model. -/
def is_permanent (cwd k : CStr) : Bool :=
  k == ['/'] || k == key_of (components cwd)

/-- The node under a key. -/
def node_key (cwd : CStr) (fs : FS) (k : CStr) : Option Node :=
  if is_permanent cwd k then some Node.dir else fs_find fs k

/-- Outcome of resolving a path name: the key and node found; the key at which nothing
exists although every directory on the way does; or failure because a component on the way
is missing (`ENOENT`) or is not a directory (`ENOTDIR`). -/
inductive Lookup where
  | found (k : CStr) (n : Node)
  | absent (k : CStr)
  | enoent
  | enotdir
  deriving DecidableEq

/-- Walks the remaining components from the directory reached through `cur`: `.` stays,
`..` goes to the parent (the root is its own parent), a name goes down; every directory
walked through must exist. -/
def resolve_from (cwd : CStr) (fs : FS) : List CStr → List CStr → Lookup
  | cur, [] =>
    match node_key cwd fs (key_of cur) with
    | some n => Lookup.found (key_of cur) n
    | none => Lookup.absent (key_of cur)
  | cur, c :: rest =>
    match node_key cwd fs (key_of cur) with
    | some Node.dir =>
      if c = ['.'] then resolve_from cwd fs cur rest
      else if c = ['.', '.'] then resolve_from cwd fs cur.dropLast rest
      else resolve_from cwd fs (cur ++ [c]) rest
    | some (Node.file _) => Lookup.enotdir
    | none => Lookup.enoent

/-- Path resolution: an absolute path name is walked from the root, any other from the
working directory; the empty name resolves to nothing. -/
def resolve (cwd : CStr) (fs : FS) (p : CStr) : Lookup :=
  if p = [] then Lookup.enoent
  else resolve_from cwd fs (if p.head? = some '/' then [] else components cwd) (components p)

/-- Whether the last component of the path name is `.` or `..`. -/
def ends_in_dot (p : CStr) : Bool :=
  (components p).getLast? == some ['.'] || (components p).getLast? == some ['.', '.']

/-- Whether the path name can only name a directory: it ends in a slash, in `.` or in
`..`. -/
def names_directory (p : CStr) : Bool :=
  p.getLast? == some '/' || ends_in_dot p

/-- Path resolution for a call that uses what it finds: a regular file is not reached
through a name that can only name a directory. -/
def lookup (cwd : CStr) (fs : FS) (p : CStr) : Lookup :=
  match resolve cwd fs p with
  | Lookup.found k (Node.file c) =>
    if names_directory p then Lookup.enotdir else Lookup.found k (Node.file c)
  | r => r

/-- The node a path name leads to, if any. -/
def node_at (cwd : CStr) (fs : FS) (p : CStr) : Option Node :=
  match lookup cwd fs p with
  | Lookup.found _ n => some n
  | _ => none

/-- The key a path name leads to, whether or not something exists there. -/
def key_at (cwd : CStr) (fs : FS) (p : CStr) : Option CStr :=
  match lookup cwd fs p with
  | Lookup.found k _ => some k
  | Lookup.absent k => some k
  | _ => none

/-- The result of a resolution that ends at key `k`, read off the node under `k`. -/
def reached (cwd : CStr) (fs : FS) (k : CStr) : Lookup :=
  match node_key cwd fs k with
  | some n => Lookup.found k n
  | none => Lookup.absent k

/-- The path names `.`, `/`, `//`, ...: the working directory and the root. -/
def is_root_or_dot (p : CStr) : Bool :=
  p == ['.'] || (p != [] && (components p).isEmpty)

/-- Whether the table holds an entry below the directory with key `k` (not the root). -/
def has_entries_below (fs : FS) (k : CStr) : Bool :=
  fs.any (fun e => starts_with (k ++ ['/']) e.1)

/-- Everything the program does not control: the working directory of the process, and
which system calls fail for reasons outside the file-system table (permissions, I/O errors,
full or foreign devices). -/
structure Env where
  /-- The working directory of the process, an absolute path name in normal form (as
  `getcwd` reports it). -/
  cwd : CStr
  /-- The call `stat`/`access` fails although the path may exist (e.g. `EACCES`). -/
  stat_fails : CStr → Bool
  /-- The call `fopen(path, "rb")` fails. -/
  fopen_read_fails : CStr → Bool
  /-- The call `fopen(path, "wb")` fails. -/
  fopen_write_fails : CStr → Bool
  /-- A read error strikes after this many bytes of the file have been delivered. -/
  read_error_after : CStr → Option Nat
  /-- The output stream accepts only this many bytes before `fwrite` reports a short count. -/
  fwrite_accepts : CStr → Option Nat
  /-- Only this many of the accepted bytes reach the file when the stream is flushed by
  `fclose` (whose result the program does not look at). -/
  flush_delivers : CStr → Option Nat
  /-- The call `unlink` fails. -/
  unlink_fails : CStr → Bool
  /-- The call `rename` fails (e.g. `EXDEV`). -/
  rename_fails : CStr → CStr → Bool
  /-- The call `mkdir` fails for a reason other than `EEXIST`. -/
  mkdir_fails : CStr → Bool
  /-- The call `remove` fails. -/
  remove_fails : CStr → Bool

/-- The environment in which no call fails for outside reasons, with the root as working
directory. -/
def Env.calm : Env where
  cwd := ['/']
  stat_fails := fun _ => false
  fopen_read_fails := fun _ => false
  fopen_write_fails := fun _ => false
  read_error_after := fun _ => none
  fwrite_accepts := fun _ => none
  flush_delivers := fun _ => none
  unlink_fails := fun _ => false
  rename_fails := fun _ _ => false
  mkdir_fails := fun _ => false
  remove_fails := fun _ => false

/-- Outcome of `stat`: the node, or the failure (`ENOENT`, or any other `errno`). -/
inductive StatResult where
  | ok (n : Node)
  | enoent
  | other
  deriving DecidableEq

/-- The system call `stat`.  The root and the working directory can always be reached. -/
def stat (env : Env) (fs : FS) (p : CStr) : StatResult :=
  if is_root_or_dot p then StatResult.ok Node.dir
  else if env.stat_fails p then StatResult.other
  else
    match lookup env.cwd fs p with
    | Lookup.found _ n => StatResult.ok n
    | Lookup.absent _ => StatResult.enoent
    | Lookup.enoent => StatResult.enoent
    | Lookup.enotdir => StatResult.other

/-- The system call `access(path, F_OK)`: 0 when the path can be reached, -1 otherwise. -/
def access (env : Env) (fs : FS) (p : CStr) : Int :=
  match stat env fs p with
  | StatResult.ok _ => 0
  | _ => -1

/-- Outcome of `mkdir`. -/
inductive MkdirResult where
  | ok (fs : FS)
  | eexist
  | error

/-- The system call `mkdir`: `EEXIST` when anything is at the path, a new directory when
nothing is and the parent directory exists. -/
def mkdir (env : Env) (fs : FS) (p : CStr) : MkdirResult :=
  match resolve env.cwd fs p with
  | Lookup.found _ _ => MkdirResult.eexist
  | Lookup.absent k =>
    if env.mkdir_fails p then MkdirResult.error else MkdirResult.ok (fs_put fs k Node.dir)
  | _ => MkdirResult.error

/-- The system call `unlink`: the new file system, or `none` when the call fails. -/
def unlink (env : Env) (fs : FS) (p : CStr) : Option FS :=
  if env.unlink_fails p then none
  else
    match lookup env.cwd fs p with
    | Lookup.found k (Node.file _) => some (fs_erase fs k)
    | _ => none

/-- The libc function `remove`: `unlink` for a file, `rmdir` for a directory (which must be
empty, and neither the root nor the working directory); `none` when the call fails. -/
def remove (env : Env) (fs : FS) (p : CStr) : Option FS :=
  if env.remove_fails p then none
  else
    match lookup env.cwd fs p with
    | Lookup.found k (Node.file _) => some (fs_erase fs k)
    | Lookup.found k Node.dir =>
      if is_permanent env.cwd k || ends_in_dot p || has_entries_below fs k then none
      else some (fs_erase fs k)
    | _ => none

/-- The table after the directory with key `ko` has become the directory with key `kn`:
the entry and everything below it move. -/
def rekey (fs : FS) (ko kn : CStr) : FS :=
  fs.map (fun e =>
    if e.1 = ko then (kn, e.2)
    else if starts_with (ko ++ ['/']) e.1 then (kn ++ e.1.drop ko.length, e.2)
    else e)

/-- The system call `rename`: the new file system, or `none` when the call fails.  A regular
file replaces whatever regular file is at the new path; a directory moves with everything
below it, onto nothing or onto an empty directory. -/
def rename (env : Env) (fs : FS) (old new : CStr) : Option FS :=
  if env.rename_fails old new then none
  else
    match lookup env.cwd fs old with
    | Lookup.found ko (Node.file c) =>
      match lookup env.cwd fs new with
      | Lookup.found kn (Node.file _) =>
        if ko = kn then some fs else some (fs_put (fs_erase fs ko) kn (Node.file c))
      | Lookup.absent kn =>
        if names_directory new then none else some (fs_put (fs_erase fs ko) kn (Node.file c))
      | _ => none
    | Lookup.found ko Node.dir =>
      if is_permanent env.cwd ko || ends_in_dot old then none
      else
        match lookup env.cwd fs new with
        | Lookup.found kn Node.dir =>
          if ko = kn then some fs
          else if is_permanent env.cwd kn || ends_in_dot new then none
          else if starts_with (ko ++ ['/']) kn then none
          else if has_entries_below fs kn then none
          else some (rekey (fs_erase fs kn) ko kn)
        | Lookup.absent kn =>
          if starts_with (ko ++ ['/']) kn then none else some (rekey fs ko kn)
        | _ => none
    | _ => none

/-- The call `fopen(path, "rb")`: the key of the opened file, or `none` when the call
fails. -/
def fopen_read (env : Env) (fs : FS) (p : CStr) : Option CStr :=
  if env.fopen_read_fails p then none
  else
    match lookup env.cwd fs p with
    | Lookup.found k _ => some k
    | _ => none

/-- The call `fopen(path, "wb")`: creates the file or truncates it to length zero; the key
of the opened file and the new file system, or `none` when the call fails (outside reason,
the path names a directory, or the parent directory is missing). -/
def fopen_write (env : Env) (fs : FS) (p : CStr) : Option (CStr × FS) :=
  if env.fopen_write_fails p then none
  else
    match lookup env.cwd fs p with
    | Lookup.found k (Node.file _) => some (k, fs_put fs k (Node.file []))
    | Lookup.absent k =>
      if names_directory p then none else some (k, fs_put fs k (Node.file []))
    | _ => none

/-- What the source stream opened on key `k` can deliver: the bytes that `fread` hands out
before end-of-file or error, and the value of `ferror` afterwards. -/
def source_stream (env : Env) (fs : FS) (k : CStr) (p : CStr) : List Char × Bool :=
  match node_key env.cwd fs k with
  | some (Node.file c) =>
    match env.read_error_after p with
    | none => (c, false)
    | some n => (c.take n, true)
  | _ => ([], true)

/-- The bytes that reach the destination file once its stream is closed. -/
def flushed (env : Env) (p : CStr) (accepted : List Char) : List Char :=
  match env.flush_delivers p with
  | none => accepted
  | some k => accepted.take k

/-! ## `create_directory` and `copy_file` -/

/-- Source `create_directory`, the recursion on the parent made structural by a counter
(`none` only when the counter runs out, which `create_directory` never lets happen).
Memory allocation (`strdup`) is taken to succeed. -/
def create_directory_aux (env : Env) : Nat → FS → CStr → Option (Bool × FS)
  | 0, _, _ => none
  | fuel + 1, fs, path =>
    let dir := dirname path
    let parent : Option (Bool × FS) :=
      if access env fs dir ≠ 0 then create_directory_aux env fuel fs dir else some (true, fs)
    match parent with
    | none => none
    | some (false, fs1) => some (false, fs1)
    | some (true, fs1) =>
      match mkdir env fs1 path with
      | MkdirResult.ok fs2 => some (true, fs2)
      | MkdirResult.eexist => some (true, fs1)
      | MkdirResult.error => some (false, fs1)

/-- Source `create_directory`: the result flag and the file system afterwards. -/
def create_directory (env : Env) (fs : FS) (path : Option CStr) : Bool × FS :=
  match path with
  | none => (false, fs)
  | some path => (create_directory_aux env (strlen path + 1) fs path).getD (false, fs)

/-- The read/write loop of source `copy_file`: `input` is what the source stream still
delivers, `out` what the destination stream has accepted.  Returns whether every `fwrite`
reported the full count, and the accepted bytes.  The counter bounds the number of rounds;
each round consumes at least one byte. -/
def copy_loop (wlimit : Option Nat) : Nat → List Char → List Char → Bool × List Char
  | 0, _, out => (true, out)
  | fuel + 1, input, out =>
    let buffer := input.take 8192
    let bytes := buffer.length
    if bytes > 0 then
      let written :=
        match wlimit with
        | none => bytes
        | some l => min bytes (l - out.length)
      if written ≠ bytes then (false, out ++ buffer.take written)
      else copy_loop wlimit fuel (input.drop 8192) (out ++ buffer)
    else (true, out)

/-- Source `copy_file` from the point where both streams are open (`ks` and `kd` are the
keys of the opened source and destination): the loop, the `ferror` test, the two `fclose`
calls, and the `unlink` of the destination path when the copy did not succeed. -/
def copy_opened (env : Env) (fs1 : FS) (ks kd : CStr) (source_path dest_path : CStr) :
    Bool × FS :=
  let src := source_stream env fs1 ks source_path
  let looped := copy_loop (env.fwrite_accepts dest_path) src.1.length src.1 []
  let success := looped.1 && !src.2
  let fs2 := fs_put fs1 kd (Node.file (flushed env dest_path looped.2))
  if success then (true, fs2)
  else (false, (unlink env fs2 dest_path).getD fs2)

/-- Source `copy_file`: the result flag and the file system afterwards. -/
def copy_file (env : Env) (fs : FS) (source_path dest_path : CStr) : Bool × FS :=
  match fopen_read env fs source_path with
  | none => (false, fs)
  | some ks =>
    match fopen_write env fs dest_path with
    | none => (false, fs)
    | some (kd, fs1) => copy_opened env fs1 ks kd source_path dest_path

/-! ## The traversal callback -/

/-- The type flags `nftw` hands to its callback (`<ftw.h>`). -/
inductive TypeFlag where
  | FTW_F
  | FTW_D
  | FTW_DNR
  | FTW_NS
  | FTW_SL
  | FTW_DP
  | FTW_SLN
  deriving DecidableEq, Repr

open TypeFlag

/-- The globals set once from the command line: `g_command`, `g_extension`,
`g_destination`, `g_root_dir`. -/
structure Config where
  g_command : CStr
  g_extension : Option CStr
  g_destination : Option CStr
  g_root_dir : CStr

/-- The globals the callback updates, together with the file system and the lines written
to standard output. -/
structure State where
  g_file_count : Int
  g_dir_count : Int
  g_total_size : Int
  g_error_occurred : Bool
  fs : FS
  stdout : List CStr
  deriving DecidableEq

/-- One call of the callback: the arguments `nftw` passes (`path`, `sb->st_size`,
`typeflag`) and the behaviour of the outside world while the entry is handled. -/
structure Visit where
  path : CStr
  st_size : Int
  typeflag : TypeFlag
  env : Env

/-- A C `int` after an arithmetic step (two's complement, 32 bits). -/
def wrap_int (x : Int) : Int := (x + 2 ^ 31) % 2 ^ 32 - 2 ^ 31

/-- A C `long` after an arithmetic step (two's complement, 64 bits). -/
def wrap_long (x : Int) : Int := (x + 2 ^ 63) % 2 ^ 64 - 2 ^ 63

/-- The string `printf` substitutes for `%s`: glibc prints `(null)` for a null pointer. -/
def fmt_s (s : Option CStr) : CStr := s.getD "(null)".toList

/-- The `relative_path` of the `-cp` branch: the entry path from the length of the root
on, without one leading slash. -/
def relative_path (cfg : Config) (path : CStr) : CStr :=
  if (path.drop (strlen cfg.g_root_dir)).head? = some '/' then
    (path.drop (strlen cfg.g_root_dir)).drop 1
  else path.drop (strlen cfg.g_root_dir)

/-- The destination path the `-cp` branch builds with `snprintf`. -/
def cp_dest_path (cfg : Config) (path : CStr) : CStr :=
  fmt_s cfg.g_destination ++ '/' :: relative_path cfg path

/-- The destination path the `-mv` branch builds with `snprintf`. -/
def mv_dest_path (cfg : Config) (path : CStr) : CStr :=
  fmt_s cfg.g_destination ++ '/' :: path.drop (strlen (dirname path) + 1)

/-- The `-cp` branch of source `tree_walker`. -/
def tree_walker_cp (cfg : Config) (s : State) (v : Visit) : Int × State :=
  if strlen (cp_dest_path cfg v.path) ≥ PATH_MAX then
    (0, { s with g_error_occurred := true })
  else if v.typeflag = FTW_D then
    match create_directory v.env s.fs (some (cp_dest_path cfg v.path)) with
    | (false, fs1) => (0, { s with fs := fs1, g_error_occurred := true })
    | (true, fs1) => (0, { s with fs := fs1 })
  else if v.typeflag = FTW_F then
    if cfg.g_extension.isSome ∧ has_extension (some v.path) cfg.g_extension = true then (0, s)
    else
      match copy_file v.env s.fs v.path (cp_dest_path cfg v.path) with
      | (false, fs1) => (0, { s with fs := fs1, g_error_occurred := true })
      | (true, fs1) => (0, { s with fs := fs1 })
  else (0, s)

/-- The `-mv` branch of source `tree_walker`. -/
def tree_walker_mv (cfg : Config) (s : State) (v : Visit) : Int × State :=
  if strlen (mv_dest_path cfg v.path) ≥ PATH_MAX then
    (0, { s with g_error_occurred := true })
  else if v.typeflag = FTW_F then
    match rename v.env s.fs v.path (mv_dest_path cfg v.path) with
    | some fs1 => (0, { s with fs := fs1 })
    | none =>
      match copy_file v.env s.fs v.path (mv_dest_path cfg v.path) with
      | (false, fs1) => (0, { s with fs := fs1, g_error_occurred := true })
      | (true, fs1) => (0, { s with fs := fs1 })
  else if v.typeflag = FTW_D then
    if strcmp v.path cfg.g_root_dir ≠ 0 then
      match create_directory v.env s.fs (some (mv_dest_path cfg v.path)) with
      | (false, fs1) => (0, { s with fs := fs1, g_error_occurred := true })
      | (true, fs1) => (0, { s with fs := fs1 })
    else (0, s)
  else (0, s)

/-- The `-del` branch of source `tree_walker`. -/
def tree_walker_del (cfg : Config) (s : State) (v : Visit) : Int × State :=
  if v.typeflag = FTW_F ∧ has_extension (some v.path) cfg.g_extension = true then
    match unlink v.env s.fs v.path with
    | some fs1 => (0, { s with fs := fs1 })
    | none => (0, { s with g_error_occurred := true })
  else (0, s)

/-- The `-fs` branch of source `tree_walker`. -/
def tree_walker_fs (s : State) (v : Visit) : Int × State :=
  if v.typeflag = FTW_F then
    if v.st_size < 0 then (0, { s with g_error_occurred := true })
    else (0, { s with g_total_size := wrap_long (s.g_total_size + v.st_size) })
  else (0, s)

/-- Source `tree_walker`: the value returned to `nftw` and the state afterwards.
Diagnostics on standard error are not recorded. -/
def tree_walker (cfg : Config) (s : State) (v : Visit) : Int × State :=
  if v.typeflag = FTW_DNR then (0, { s with g_error_occurred := true })
  else if v.typeflag = FTW_NS then (0, { s with g_error_occurred := true })
  else if ¬ (v.typeflag = FTW_F ∨ v.typeflag = FTW_D) then (0, s)
  else if strcmp cfg.g_command "-ls".toList = 0 then
    (0, { s with stdout := s.stdout ++ [v.path] })
  else if strcmp cfg.g_command "-ext".toList = 0 then
    if v.typeflag = FTW_F ∧ has_extension (some v.path) cfg.g_extension = true then
      (0, { s with stdout := s.stdout ++ [v.path] })
    else (0, s)
  else if strcmp cfg.g_command "-fc".toList = 0 then
    if v.typeflag = FTW_F then (0, { s with g_file_count := wrap_int (s.g_file_count + 1) })
    else (0, s)
  else if strcmp cfg.g_command "-dc".toList = 0 then
    if v.typeflag = FTW_D then (0, { s with g_dir_count := wrap_int (s.g_dir_count + 1) })
    else (0, s)
  else if strcmp cfg.g_command "-fs".toList = 0 then tree_walker_fs s v
  else if strcmp cfg.g_command "-cp".toList = 0 then tree_walker_cp cfg s v
  else if strcmp cfg.g_command "-mv".toList = 0 then tree_walker_mv cfg s v
  else if strcmp cfg.g_command "-del".toList = 0 then tree_walker_del cfg s v
  else (0, s)

/-! ## The traversal driver and `main` -/

/-- The libc function `nftw`, given the entries it comes across: calls `fn` on each in turn
and stops at the first call that returns non-zero, returning that value. -/
def nftw {σ : Type} (fn : σ → Visit → Int × σ) : σ → List Visit → Int × σ
  | s, [] => (0, s)
  | s, v :: vs =>
    let r := fn s v
    if r.1 ≠ 0 then r else nftw fn r.2 vs

/-- The main walk: `nftw` with `tree_walker` as callback. -/
def walk (cfg : Config) (s : State) (vs : List Visit) : Int × State :=
  nftw (tree_walker cfg) s vs

/-- The process surroundings of one run: the `HOME` variable, the behaviour of the system
calls `main` makes itself, and what the two traversals come across (the entries in visiting
order, and whether `nftw` itself reports failure). -/
structure Sys where
  HOME : Option CStr
  env : Env
  traversal : FS → CStr → List Visit × Bool
  traversal_depth : FS → CStr → List Visit × Bool

/-- Source `validate_directory`. -/
def validate_directory (home : Option CStr) (env : Env) (fs : FS) (path : Option CStr) : Bool :=
  match path with
  | none => false
  | some path =>
    if strlen path > PATH_MAX then false
    else
      match stat env fs path with
      | StatResult.ok st =>
        if st ≠ Node.dir then false
        else
          match home with
          | none => false
          | some home => if strncmp path home (strlen home) ≠ 0 then false else true
      | _ => false

/-- The callback of the cleanup walk: the libc function `remove` applied to the path. -/
def remove_callback (fs : FS) (v : Visit) : Int × FS :=
  match remove v.env fs v.path with
  | some fs1 => (0, fs1)
  | none => (-1, fs)

/-- Source `remove_directory`: a depth-first walk that calls `remove` on every entry. -/
def remove_directory (sys : Sys) (fs : FS) (path : CStr) : Int × FS :=
  let t := sys.traversal_depth fs path
  let r := nftw remove_callback fs t.1
  (if r.1 ≠ 0 then r.1 else if t.2 then -1 else 0, r.2)

/-- The state in which `main` starts. -/
def State.start (fs : FS) : State :=
  { g_file_count := 0, g_dir_count := 0, g_total_size := 0, g_error_occurred := false,
    fs := fs, stdout := [] }

/-- The names of the eight commands. -/
def valid_commands : List CStr :=
  ["-ls".toList, "-ext".toList, "-fc".toList, "-dc".toList, "-fs".toList, "-cp".toList,
    "-mv".toList, "-del".toList]

/-- The part of source `main` before the traversal: checks the arguments, creates the
destination when needed, and fills in the globals; `none` when `main` returns 1 here. -/
def setup (sys : Sys) (fs : FS) (argv : List CStr) : Option Config × FS :=
  match argv with
  | _ :: g_command :: g_root_dir :: rest =>
    if valid_commands.any (fun cmd => strcmp g_command cmd == 0) = false then (none, fs)
    else if validate_directory sys.HOME sys.env fs (some g_root_dir) = false then (none, fs)
    else if strcmp g_command "-ext".toList = 0 ∨ strcmp g_command "-del".toList = 0 then
      match rest with
      | [] => (none, fs)
      | g_extension :: _ =>
        if validate_extension (some g_extension) = false then (none, fs)
        else
          (some { g_command := g_command, g_extension := some g_extension,
                  g_destination := none, g_root_dir := g_root_dir }, fs)
    else if strcmp g_command "-cp".toList = 0 ∨ strcmp g_command "-mv".toList = 0 then
      match rest with
      | [] => (none, fs)
      | g_destination :: rest4 =>
        let made : Bool × FS :=
          match stat sys.env fs g_destination with
          | StatResult.ok st => if st ≠ Node.dir then (false, fs) else (true, fs)
          | StatResult.enoent => create_directory sys.env fs (some g_destination)
          | StatResult.other => (false, fs)
        if made.1 = false then (none, made.2)
        else
          match rest4 with
          | [] =>
            (some { g_command := g_command, g_extension := none,
                    g_destination := some g_destination, g_root_dir := g_root_dir }, made.2)
          | g_extension :: _ =>
            if validate_extension (some g_extension) = false then (none, made.2)
            else
              (some { g_command := g_command, g_extension := some g_extension,
                      g_destination := some g_destination, g_root_dir := g_root_dir }, made.2)
    else
      (some { g_command := g_command, g_extension := none, g_destination := none,
              g_root_dir := g_root_dir }, fs)
  | _ => (none, fs)

/-- The lines the counting commands print after the walk. -/
def report (cfg : Config) (s : State) : State :=
  if strcmp cfg.g_command "-fc".toList = 0 then
    { s with stdout := s.stdout ++ [("Total files: " ++ toString s.g_file_count).toList] }
  else if strcmp cfg.g_command "-dc".toList = 0 then
    { s with stdout := s.stdout ++ [("Total directories: " ++ toString s.g_dir_count).toList] }
  else if strcmp cfg.g_command "-fs".toList = 0 then
    { s with stdout :=
        s.stdout ++ [("Total size: " ++ toString s.g_total_size ++ " bytes").toList] }
  else s

/-- The cleanup step of source `main`: after a move whose walk recorded no error, the
source tree is removed; the value is the result of `remove_directory` (0 when the step is
skipped). -/
def cleanup (sys : Sys) (cfg : Config) (s : State) : Int × State :=
  if strcmp cfg.g_command "-mv".toList = 0 ∧ s.g_error_occurred = false then
    ((remove_directory sys s.fs cfg.g_root_dir).1,
      { s with fs := (remove_directory sys s.fs cfg.g_root_dir).2 })
  else (0, s)

/-- The part of source `main` from the traversal on: the main walk, the cleanup step, the
report, and the exit status. -/
def run (sys : Sys) (cfg : Config) (fs : FS) : Int × State :=
  let t := sys.traversal fs cfg.g_root_dir
  let r := walk cfg (State.start fs) t.1
  if (if r.1 ≠ 0 then r.1 else if t.2 then -1 else 0) = -1 then (1, r.2)
  else if (cleanup sys cfg r.2).1 ≠ 0 then (1, (cleanup sys cfg r.2).2)
  else
    (if (report cfg (cleanup sys cfg r.2).2).g_error_occurred then 1 else 0,
      report cfg (cleanup sys cfg r.2).2)

/-- Source `main`: the exit status and the final state. -/
def main (sys : Sys) (fs : FS) (argv : List CStr) : Int × State :=
  match setup sys fs argv with
  | (none, fs1) => (1, State.start fs1)
  | (some cfg, fs1) => run sys cfg fs1

/-! ## A concrete traversal for worked examples -/

/-- Whether key `k` is the key `root` or lies below it. -/
def is_under (root k : CStr) : Bool :=
  k == root || starts_with (if root = ['/'] then root else root ++ ['/']) k

/-- The root path as `nftw` uses it: trailing slashes removed, but never all of it. -/
def strip_root (root : CStr) : CStr :=
  if dropTrailing (fun c => c == '/') root = [] then root.take 1
  else dropTrailing (fun c => c == '/') root

/-- The path name under which `nftw`, started on `root` (whose key is `kr`), reports the
entry with key `k`: the root as given, followed by the way from the root to the entry. -/
def visit_path (root kr k : CStr) : CStr :=
  if k = kr then strip_root root
  else if kr = ['/'] then strip_root root ++ k.drop 1
  else strip_root root ++ k.drop kr.length

/-- The visit `nftw` makes for a table entry when nothing is unreadable. -/
def visit_of (env : Env) (root kr : CStr) (e : CStr × Node) : Visit :=
  match e.2 with
  | Node.file c =>
    { path := visit_path root kr e.1, st_size := c.length, typeflag := FTW_F, env := env }
  | Node.dir =>
    { path := visit_path root kr e.1, st_size := 4096, typeflag := FTW_D, env := env }

/-- The entries at and below the key `kr` of `root`, in table order (a table that lists
every directory before its contents gives a pre-order walk). -/
def snapshot (env : Env) (fs : FS) (root kr : CStr) : List Visit :=
  (fs.filter (fun e => is_under kr e.1)).map (visit_of env root kr)

/-- Surroundings in which both traversals see the table as it is when they start, the main
walk top-down and the cleanup walk bottom-up, with `env` in force throughout; `nftw` fails
when the root cannot be reached. -/
def Sys.snapshot (home : Option CStr) (env : Env) : Sys where
  HOME := home
  env := env
  traversal := fun fs root =>
    match lookup env.cwd fs root with
    | Lookup.found kr _ => (FileFlow.snapshot env fs root kr, false)
    | _ => ([], true)
  traversal_depth := fun fs root =>
    match lookup env.cwd fs root with
    | Lookup.found kr _ => ((FileFlow.snapshot env fs root kr).reverse, false)
    | _ => ([], true)

/-! ## Notions used to state the properties -/

/-- An entry is special when it is none of: regular file, directory, unreadable directory,
entry that could not be stat-ed. -/
def is_special (t : TypeFlag) : Bool :=
  !(t == FTW_F || t == FTW_D || t == FTW_DNR || t == FTW_NS)

/-- Number of visited entries that are not special. -/
def non_special_count (vs : List Visit) : Nat :=
  vs.countP (fun v => !is_special v.typeflag)

/-- Number of visited entries that could not be stat-ed. -/
def stat_failure_count (vs : List Visit) : Nat :=
  vs.countP (fun v => decide (v.typeflag = FTW_NS))

/-- Number of visited directories that could not be read. -/
def unreadable_count (vs : List Visit) : Nat :=
  vs.countP (fun v => decide (v.typeflag = FTW_DNR))

/-- The mirrored path of an entry whose path is the root followed by `rem`: the
destination root, one slash, and `rem` without one leading slash. -/
def mirrored_path (dest rem : CStr) : CStr :=
  match rem with
  | '/' :: rest => dest ++ '/' :: rest
  | _ => dest ++ '/' :: rem

/-- The key of the file that handling entry `v` under `-mv` renames away: the entry is a
regular file, its destination path fits, and `rename` succeeds towards a different key. -/
def mv_removes (cfg : Config) (s : State) (v : Visit) : Option CStr :=
  if v.typeflag = FTW_F ∧ strlen (mv_dest_path cfg v.path) < PATH_MAX then
    if (rename v.env s.fs v.path (mv_dest_path cfg v.path)).isSome = true ∧
        ¬ key_at v.env.cwd s.fs v.path = key_at v.env.cwd s.fs (mv_dest_path cfg v.path) then
      key_at v.env.cwd s.fs v.path
    else none
  else none

/-- The keys of the files a move walk renames away (each entry handled in the state its
predecessors left). -/
def renamed_away (cfg : Config) : State → List Visit → List CStr
  | _, [] => []
  | s, v :: vs => (mv_removes cfg s v).toList ++ renamed_away cfg (tree_walker cfg s v).2 vs

/-- The entry fails: handling it from a clear error flag sets the flag. -/
def entry_fails (cfg : Config) (s : State) (v : Visit) : Bool :=
  (tree_walker cfg { s with g_error_occurred := false } v).2.g_error_occurred

/-- Some entry of the walk fails (each entry handled in the state its predecessors left). -/
def any_entry_fails (cfg : Config) : State → List Visit → Bool
  | _, [] => false
  | s, v :: vs => entry_fails cfg s v || any_entry_fails cfg (tree_walker cfg s v).2 vs

/-! ## Worked examples -/

/-- The home directory of the examples. -/
def ex_home : CStr := "/home/u".toList

/-- A source tree with two directories that each hold a file named `x`, next to an empty
destination directory. -/
def ex_tree : FS :=
  [("/home".toList, Node.dir),
   ("/home/u".toList, Node.dir),
   ("/home/u/src".toList, Node.dir),
   ("/home/u/src/a".toList, Node.dir),
   ("/home/u/src/a/x".toList, Node.file "first".toList),
   ("/home/u/src/b".toList, Node.dir),
   ("/home/u/src/b/x".toList, Node.file "second".toList),
   ("/home/u/dst".toList, Node.dir)]

/-- The command line `prog -mv /home/u/src /home/u/dst`. -/
def ex_mv_argv : List CStr :=
  ["prog".toList, "-mv".toList, "/home/u/src".toList, "/home/u/dst".toList]

/-- The globals after `main` has read `ex_mv_argv`. -/
def ex_mv_cfg : Config :=
  { g_command := "-mv".toList, g_extension := none,
    g_destination := some "/home/u/dst".toList, g_root_dir := "/home/u/src".toList }

/-- The globals of a copy from `/home/u/src` to `/home/u/dst`. -/
def ex_cp_cfg : Config :=
  { g_command := "-cp".toList, g_extension := none,
    g_destination := some "/home/u/dst".toList, g_root_dir := "/home/u/src".toList }

/-- An environment in which every `remove` fails (say, a read-only source). -/
def ex_env_no_remove : Env :=
  { Env.calm with remove_fails := fun _ => true }

/-- Whether the last two components of the path are `b` and `x`. -/
def ex_is_b_x (p : CStr) : Bool :=
  (components p).reverse.take 2 == ["x".toList, "b".toList]

/-- An environment in which nothing can be done to the file `b/x`: it can be neither
renamed nor opened. -/
def ex_env_locked : Env :=
  { Env.calm with
    rename_fails := fun old _ => ex_is_b_x old
    fopen_read_fails := fun p => ex_is_b_x p }

/-- An environment in which every `rename` fails (source and destination on different
devices) and, in addition, the file `b/x` cannot be opened. -/
def ex_env_cross_device : Env :=
  { Env.calm with
    rename_fails := fun _ _ => true
    fopen_read_fails := fun p => ex_is_b_x p }

/-- A visit of a regular file, with `env` in force. -/
def ex_file_visit (env : Env) (path : CStr) : Visit :=
  { path := path, st_size := 5, typeflag := FTW_F, env := env }

/-- A visit of a directory, with `env` in force. -/
def ex_dir_visit (env : Env) (path : CStr) : Visit :=
  { path := path, st_size := 4096, typeflag := FTW_D, env := env }

/-- A visit of a directory that cannot be read. -/
def ex_unreadable_visit : Visit :=
  { path := "/home/u/src/locked".toList, st_size := 4096, typeflag := FTW_DNR, env := Env.calm }

/-- The example tree with a file already present at `/home/u/dst/x`. -/
def ex_tree_old_dest : FS :=
  fs_put ex_tree "/home/u/dst/x".toList (Node.file "old".toList)

/-- An environment in which no file can be opened for reading. -/
def ex_env_no_read : Env :=
  { Env.calm with fopen_read_fails := fun _ => true }

/-- An environment in which the flush at `fclose` delivers nothing (say, a full disk): the
bytes `fwrite` accepted into the stream buffer never reach the file. -/
def ex_env_lost_flush : Env :=
  { Env.calm with flush_delivers := fun _ => some 0 }

/-- The command line `prog -mv /home/u/./src /home/u/dst`. -/
def ex_mv_argv_dotted : List CStr :=
  ["prog".toList, "-mv".toList, "/home/u/./src".toList, "/home/u/dst".toList]

/-- An environment in which the destination stream accepts only three bytes. -/
def ex_env_short_write : Env :=
  { Env.calm with fwrite_accepts := fun _ => some 3 }

/-! ## Facts about the string functions -/

theorem char_diff_ne_zero (a b : Char) (h : a ≠ b) : (a.toNat : Int) - (b.toNat : Int) ≠ 0 := by
  intro h2
  apply h
  have h3 : a.toNat = b.toNat := by omega
  have h4 := congrArg Char.ofNat h3
  simpa [Char.ofNat_toNat] using h4

theorem strcmp_self (a : CStr) : strcmp a a = 0 := by
  induction a with
  | nil => rfl
  | cons x xs ih => simp [strcmp, ih]

theorem strcmp_eq_zero (a b : CStr) : strcmp a b = 0 ↔ a = b := by
  constructor
  · intro h
    induction a generalizing b with
    | nil =>
      cases b with
      | nil => rfl
      | cons y ys => simp [strcmp] at h
    | cons x xs ih =>
      cases b with
      | nil => simp [strcmp] at h
      | cons y ys =>
        simp only [strcmp] at h
        by_cases hxy : x = y
        · subst hxy
          simp at h
          rw [ih ys h]
        · simp [hxy] at h
          exact absurd h (char_diff_ne_zero x y hxy)
  · intro h
    subst h
    exact strcmp_self a

theorem strcmp_beq_zero (a b : CStr) : (strcmp a b == 0) = decide (a = b) := by
  by_cases h : a = b
  · simp [h, strcmp_self]
  · have : strcmp a b ≠ 0 := fun h0 => h ((strcmp_eq_zero a b).mp h0)
    simp [h, this]

/-- The call `strncmp(path, home, strlen(home))` is zero exactly when `path` begins with
`home`. -/
theorem strncmp_eq_zero (path home : CStr) :
    strncmp path home (strlen home) = 0 ↔ ∃ t, path = home ++ t := by
  unfold strlen
  induction home generalizing path with
  | nil => simp [strncmp]
  | cons y ys ih =>
    cases path with
    | nil => simp [strncmp]
    | cons x xs =>
      simp only [strncmp, List.length_cons]
      by_cases hxy : x = y
      · subst hxy
        simp [ih xs]
      · simp only [hxy, if_false]
        constructor
        · intro h
          exact absurd h (char_diff_ne_zero x y hxy)
        · rintro ⟨t, ht⟩
          simp at ht
          exact absurd ht.1 hxy

/-- The function `strrchr` finds nothing exactly when the character does not occur. -/
theorem strrchr_eq_none (s : CStr) (c : Char) : strrchr s c = none ↔ c ∉ s := by
  induction s with
  | nil => simp [strrchr]
  | cons a as ih =>
    simp only [strrchr]
    cases h : strrchr as c with
    | some r =>
      have : ¬ (c ∉ as) := fun hn => by rw [ih.mpr hn] at h; cases h
      simp at this
      simp [this]
    | none =>
      have hn := ih.mp h
      by_cases hac : a = c
      · subst hac; simp
      · have hca : ¬ c = a := fun e => hac e.symm
        simp [hac, hca, hn]

/-- The function `strrchr` returns the suffix that starts at the last occurrence. -/
theorem strrchr_eq_some (s : CStr) (c : Char) (r : CStr) :
    strrchr s c = some r ↔ ∃ pre suf, s = pre ++ c :: suf ∧ c ∉ suf ∧ r = c :: suf := by
  induction s generalizing r with
  | nil => simp [strrchr]
  | cons a as ih =>
    simp only [strrchr]
    cases h : strrchr as c with
    | some r0 =>
      obtain ⟨pre, suf, hs, hsuf, hr⟩ := (ih r0).mp h
      constructor
      · intro e
        simp at e
        subst e
        exact ⟨a :: pre, suf, by simp [hs], hsuf, hr⟩
      · rintro ⟨pre2, suf2, hs2, hsuf2, hr2⟩
        have : strrchr as c = some r := by
          rw [ih r]
          cases pre2 with
          | nil =>
            simp at hs2
            obtain ⟨_, e2⟩ := hs2
            rw [hs] at e2
            exact absurd (by rw [← e2]; simp : c ∈ suf2) hsuf2
          | cons p ps =>
            simp at hs2
            exact ⟨ps, suf2, hs2.2, hsuf2, hr2⟩
        rw [h] at this
        exact this
    | none =>
      have hn := (strrchr_eq_none as c).mp h
      by_cases hac : a = c
      · subst hac
        simp only [if_true]
        constructor
        · intro e
          simp at e
          exact ⟨[], as, rfl, hn, e.symm⟩
        · rintro ⟨pre2, suf2, hs2, hsuf2, hr2⟩
          cases pre2 with
          | nil =>
            simp at hs2
            subst hs2
            simp [hr2]
          | cons p ps =>
            simp at hs2
            exact absurd (by rw [hs2.2]; simp : a ∈ as) hn
      · simp only [hac, if_false]
        constructor
        · intro e; cases e
        · rintro ⟨pre2, suf2, hs2, hsuf2, hr2⟩
          cases pre2 with
          | nil =>
            simp at hs2
            exact absurd hs2.1 hac
          | cons p ps =>
            simp at hs2
            exact absurd (by rw [hs2.2]; simp : c ∈ as) hn

/-! ## `has_extension` -/

theorem has_extension_some (name ext : CStr) :
    has_extension (some name) (some ext) = true ↔ strrchr name '.' = some ext := by
  cases h : strrchr name '.' with
  | none => simp [has_extension, h]
  | some r => simp [has_extension, h, strcmp_beq_zero]

/-- C5: with no extension configured `has_extension` accepts every name (also an absent
one); with an extension configured it rejects an absent name, and accepts a name exactly
when the name contains a dot and the part of the name from its last dot on equals the
extension; a name without a dot is never accepted. -/
theorem has_extension_spec :
    (∀ name : Option CStr, has_extension name none = true) ∧
    (∀ ext : CStr, has_extension none (some ext) = false) ∧
    (∀ name ext : CStr, has_extension (some name) (some ext) = true ↔
        ∃ pre suf, name = pre ++ '.' :: suf ∧ '.' ∉ suf ∧ ext = '.' :: suf) ∧
    (∀ name ext : CStr, '.' ∉ name → has_extension (some name) (some ext) = false) := by
  refine ⟨fun name => rfl, fun ext => rfl, fun name ext => ?_, fun name ext hdot => ?_⟩
  · rw [has_extension_some, strrchr_eq_some]
  · have hn := (strrchr_eq_none name '.').mpr hdot
    simp [has_extension, hn]

theorem lastComponent_no_slash (path : CStr) (h : '/' ∉ path) : lastComponent path = path := by
  cases path with
  | nil => rfl
  | cons a as =>
    simp at h
    have h1 : ¬ '/' ∈ as := h.2
    have h2 : ¬ a = '/' := fun e => h.1 e.symm
    simp [lastComponent, h1, h2]

theorem has_extension_lastComponent (path ext : CStr) (hext : '/' ∉ ext) :
    has_extension (some path) (some ext)
      = has_extension (some (lastComponent path)) (some ext) := by
  induction path with
  | nil => rfl
  | cons a as ih =>
    by_cases hs : '/' ∈ as
    · have hl : lastComponent (a :: as) = lastComponent as := by simp [lastComponent, hs]
      rw [hl, ← ih]
      cases h : strrchr as '.' with
      | some r => simp [has_extension, strrchr, h]
      | none =>
        by_cases ha : a = '.'
        · have hne : ¬ (a :: as = ext) := by
            intro e
            apply hext
            rw [← e]
            exact List.mem_cons_of_mem _ hs
          simp [has_extension, strrchr, h, ha, strcmp_beq_zero]
          intro e
          exact hne (by rw [ha]; exact e)
        · simp [has_extension, strrchr, h, ha]
    · by_cases ha : a = '/'
      · have hl : lastComponent (a :: as) = as := by simp [lastComponent, hs, ha]
        rw [hl]
        subst ha
        cases h : strrchr as '.' with
        | some r => simp [has_extension, strrchr, h]
        | none => simp [has_extension, strrchr, h]
      · have hl : lastComponent (a :: as) = a :: as := by simp [lastComponent, hs, ha]
        rw [hl]

theorem validate_extension_no_slash (ext : CStr) (h : validate_extension (some ext) = true) :
    '/' ∉ ext := by
  simp only [validate_extension, strcmp_beq_zero] at h
  simp at h
  rcases h with (h | h) | h <;> subst h <;> decide

/-! ## The callback: case analysis, return value and error flag -/

/-- Case analysis for `tree_walker`: a property of its result holds as soon as it holds
for the result of every branch. -/
theorem tree_walker_cases (P : Int × State → Prop) (cfg : Config) (s : State) (v : Visit)
    (h_err : P (0, { s with g_error_occurred := true }))
    (h_skip : P (0, s))
    (h_print : P (0, { s with stdout := s.stdout ++ [v.path] }))
    (h_fc : P (0, { s with g_file_count := wrap_int (s.g_file_count + 1) }))
    (h_dc : P (0, { s with g_dir_count := wrap_int (s.g_dir_count + 1) }))
    (h_fs : P (tree_walker_fs s v))
    (h_cp : P (tree_walker_cp cfg s v))
    (h_mv : P (tree_walker_mv cfg s v))
    (h_del : P (tree_walker_del cfg s v)) :
    P (tree_walker cfg s v) := by
  unfold tree_walker
  by_cases h1 : v.typeflag = FTW_DNR
  · rw [if_pos h1]; exact h_err
  rw [if_neg h1]
  by_cases h2 : v.typeflag = FTW_NS
  · rw [if_pos h2]; exact h_err
  rw [if_neg h2]
  by_cases h3 : ¬ (v.typeflag = FTW_F ∨ v.typeflag = FTW_D)
  · rw [if_pos h3]; exact h_skip
  rw [if_neg h3]
  by_cases h4 : strcmp cfg.g_command "-ls".toList = 0
  · rw [if_pos h4]; exact h_print
  rw [if_neg h4]
  by_cases h5 : strcmp cfg.g_command "-ext".toList = 0
  · rw [if_pos h5]
    by_cases h5a : v.typeflag = FTW_F ∧ has_extension (some v.path) cfg.g_extension = true
    · rw [if_pos h5a]; exact h_print
    · rw [if_neg h5a]; exact h_skip
  rw [if_neg h5]
  by_cases h6 : strcmp cfg.g_command "-fc".toList = 0
  · rw [if_pos h6]
    by_cases h6a : v.typeflag = FTW_F
    · rw [if_pos h6a]; exact h_fc
    · rw [if_neg h6a]; exact h_skip
  rw [if_neg h6]
  by_cases h7 : strcmp cfg.g_command "-dc".toList = 0
  · rw [if_pos h7]
    by_cases h7a : v.typeflag = FTW_D
    · rw [if_pos h7a]; exact h_dc
    · rw [if_neg h7a]; exact h_skip
  rw [if_neg h7]
  by_cases h8 : strcmp cfg.g_command "-fs".toList = 0
  · rw [if_pos h8]; exact h_fs
  rw [if_neg h8]
  by_cases h9 : strcmp cfg.g_command "-cp".toList = 0
  · rw [if_pos h9]; exact h_cp
  rw [if_neg h9]
  by_cases h10 : strcmp cfg.g_command "-mv".toList = 0
  · rw [if_pos h10]; exact h_mv
  rw [if_neg h10]
  by_cases h11 : strcmp cfg.g_command "-del".toList = 0
  · rw [if_pos h11]; exact h_del
  rw [if_neg h11]
  exact h_skip

theorem tree_walker_fs_zero (s : State) (v : Visit) : (tree_walker_fs s v).1 = 0 := by
  unfold tree_walker_fs
  split_ifs <;> rfl

theorem tree_walker_cp_zero (cfg : Config) (s : State) (v : Visit) :
    (tree_walker_cp cfg s v).1 = 0 := by
  unfold tree_walker_cp
  split_ifs <;> first | rfl | (split <;> rfl)

theorem tree_walker_mv_zero (cfg : Config) (s : State) (v : Visit) :
    (tree_walker_mv cfg s v).1 = 0 := by
  unfold tree_walker_mv
  split_ifs <;> first | rfl | (split <;> first | rfl | (split <;> rfl))

theorem tree_walker_del_zero (cfg : Config) (s : State) (v : Visit) :
    (tree_walker_del cfg s v).1 = 0 := by
  unfold tree_walker_del
  split_ifs <;> first | rfl | (split <;> rfl)

theorem tree_walker_returns_zero (cfg : Config) (s : State) (v : Visit) :
    (tree_walker cfg s v).1 = 0 :=
  tree_walker_cases (fun r => r.1 = 0) cfg s v rfl rfl rfl rfl rfl
    (tree_walker_fs_zero s v) (tree_walker_cp_zero cfg s v) (tree_walker_mv_zero cfg s v)
    (tree_walker_del_zero cfg s v)

theorem tree_walker_fs_flag (s : State) (v : Visit) (h : s.g_error_occurred = true) :
    (tree_walker_fs s v).2.g_error_occurred = true := by
  unfold tree_walker_fs
  split_ifs <;> first | rfl | exact h

theorem tree_walker_cp_flag (cfg : Config) (s : State) (v : Visit)
    (h : s.g_error_occurred = true) : (tree_walker_cp cfg s v).2.g_error_occurred = true := by
  unfold tree_walker_cp
  split_ifs <;> first | rfl | exact h | (split <;> first | rfl | exact h)

theorem tree_walker_mv_flag (cfg : Config) (s : State) (v : Visit)
    (h : s.g_error_occurred = true) : (tree_walker_mv cfg s v).2.g_error_occurred = true := by
  unfold tree_walker_mv
  split_ifs <;>
    first | rfl | exact h | (split <;> first | rfl | exact h | (split <;> first | rfl | exact h))

theorem tree_walker_del_flag (cfg : Config) (s : State) (v : Visit)
    (h : s.g_error_occurred = true) : (tree_walker_del cfg s v).2.g_error_occurred = true := by
  unfold tree_walker_del
  split_ifs <;> first | rfl | exact h | (split <;> first | rfl | exact h)

/-- Once the error flag is set, no call of the callback clears it. -/
theorem tree_walker_flag_mono (cfg : Config) (s : State) (v : Visit)
    (h : s.g_error_occurred = true) : (tree_walker cfg s v).2.g_error_occurred = true :=
  tree_walker_cases (fun r => r.2.g_error_occurred = true) cfg s v rfl h h h h
    (tree_walker_fs_flag s v h) (tree_walker_cp_flag cfg s v h) (tree_walker_mv_flag cfg s v h)
    (tree_walker_del_flag cfg s v h)

/-- The walk never stops early: it is the fold of the callback over all entries. -/
theorem walk_eq_foldl (cfg : Config) (s : State) (vs : List Visit) :
    walk cfg s vs = (0, vs.foldl (fun st v => (tree_walker cfg st v).2) s) := by
  unfold walk
  induction vs generalizing s with
  | nil => rfl
  | cons v vs ih =>
    simp only [nftw, List.foldl_cons]
    rw [if_neg (by simp [tree_walker_returns_zero])]
    exact ih _

theorem walk_nil (cfg : Config) (s : State) : walk cfg s [] = (0, s) := rfl

theorem walk_cons (cfg : Config) (s : State) (v : Visit) (vs : List Visit) :
    walk cfg s (v :: vs) = walk cfg (tree_walker cfg s v).2 vs := by
  rw [walk_eq_foldl, walk_eq_foldl]
  rfl

/-! ## The callback under each command -/

theorem not_dnr_of_file_or_dir (v : Visit) (h : v.typeflag = FTW_F ∨ v.typeflag = FTW_D) :
    ¬ v.typeflag = FTW_DNR := by
  rcases h with h | h <;> rw [h] <;> decide

theorem not_ns_of_file_or_dir (v : Visit) (h : v.typeflag = FTW_F ∨ v.typeflag = FTW_D) :
    ¬ v.typeflag = FTW_NS := by
  rcases h with h | h <;> rw [h] <;> decide

theorem tree_walker_of_ext (cfg : Config) (s : State) (v : Visit)
    (h : strcmp cfg.g_command "-ext".toList = 0)
    (hfd : v.typeflag = FTW_F ∨ v.typeflag = FTW_D) :
    tree_walker cfg s v =
      if v.typeflag = FTW_F ∧ has_extension (some v.path) cfg.g_extension = true then
        (0, { s with stdout := s.stdout ++ [v.path] })
      else (0, s) := by
  have hc := (strcmp_eq_zero _ _).mp h
  have e1 : strcmp "-ext".toList "-ls".toList ≠ 0 := by decide
  have e2 : strcmp "-ext".toList "-ext".toList = 0 := by decide
  unfold tree_walker
  rw [if_neg (not_dnr_of_file_or_dir v hfd), if_neg (not_ns_of_file_or_dir v hfd),
    if_neg (not_not.mpr hfd), hc, if_neg e1, if_pos e2]

theorem tree_walker_of_fs (cfg : Config) (s : State) (v : Visit)
    (h : strcmp cfg.g_command "-fs".toList = 0)
    (hfd : v.typeflag = FTW_F ∨ v.typeflag = FTW_D) :
    tree_walker cfg s v = tree_walker_fs s v := by
  have hc := (strcmp_eq_zero _ _).mp h
  have e1 : strcmp "-fs".toList "-ls".toList ≠ 0 := by decide
  have e2 : strcmp "-fs".toList "-ext".toList ≠ 0 := by decide
  have e3 : strcmp "-fs".toList "-fc".toList ≠ 0 := by decide
  have e4 : strcmp "-fs".toList "-dc".toList ≠ 0 := by decide
  have e5 : strcmp "-fs".toList "-fs".toList = 0 := by decide
  unfold tree_walker
  rw [if_neg (not_dnr_of_file_or_dir v hfd), if_neg (not_ns_of_file_or_dir v hfd),
    if_neg (not_not.mpr hfd), hc, if_neg e1, if_neg e2, if_neg e3, if_neg e4, if_pos e5]

theorem tree_walker_of_cp (cfg : Config) (s : State) (v : Visit)
    (h : strcmp cfg.g_command "-cp".toList = 0)
    (hfd : v.typeflag = FTW_F ∨ v.typeflag = FTW_D) :
    tree_walker cfg s v = tree_walker_cp cfg s v := by
  have hc := (strcmp_eq_zero _ _).mp h
  have e1 : strcmp "-cp".toList "-ls".toList ≠ 0 := by decide
  have e2 : strcmp "-cp".toList "-ext".toList ≠ 0 := by decide
  have e3 : strcmp "-cp".toList "-fc".toList ≠ 0 := by decide
  have e4 : strcmp "-cp".toList "-dc".toList ≠ 0 := by decide
  have e5 : strcmp "-cp".toList "-fs".toList ≠ 0 := by decide
  have e6 : strcmp "-cp".toList "-cp".toList = 0 := by decide
  unfold tree_walker
  rw [if_neg (not_dnr_of_file_or_dir v hfd), if_neg (not_ns_of_file_or_dir v hfd),
    if_neg (not_not.mpr hfd), hc, if_neg e1, if_neg e2, if_neg e3, if_neg e4, if_neg e5,
    if_pos e6]

theorem tree_walker_of_mv (cfg : Config) (s : State) (v : Visit)
    (h : strcmp cfg.g_command "-mv".toList = 0)
    (hfd : v.typeflag = FTW_F ∨ v.typeflag = FTW_D) :
    tree_walker cfg s v = tree_walker_mv cfg s v := by
  have hc := (strcmp_eq_zero _ _).mp h
  have e1 : strcmp "-mv".toList "-ls".toList ≠ 0 := by decide
  have e2 : strcmp "-mv".toList "-ext".toList ≠ 0 := by decide
  have e3 : strcmp "-mv".toList "-fc".toList ≠ 0 := by decide
  have e4 : strcmp "-mv".toList "-dc".toList ≠ 0 := by decide
  have e5 : strcmp "-mv".toList "-fs".toList ≠ 0 := by decide
  have e6 : strcmp "-mv".toList "-cp".toList ≠ 0 := by decide
  have e7 : strcmp "-mv".toList "-mv".toList = 0 := by decide
  unfold tree_walker
  rw [if_neg (not_dnr_of_file_or_dir v hfd), if_neg (not_ns_of_file_or_dir v hfd),
    if_neg (not_not.mpr hfd), hc, if_neg e1, if_neg e2, if_neg e3, if_neg e4, if_neg e5,
    if_neg e6, if_pos e7]

theorem tree_walker_of_del (cfg : Config) (s : State) (v : Visit)
    (h : strcmp cfg.g_command "-del".toList = 0)
    (hfd : v.typeflag = FTW_F ∨ v.typeflag = FTW_D) :
    tree_walker cfg s v = tree_walker_del cfg s v := by
  have hc := (strcmp_eq_zero _ _).mp h
  have e1 : strcmp "-del".toList "-ls".toList ≠ 0 := by decide
  have e2 : strcmp "-del".toList "-ext".toList ≠ 0 := by decide
  have e3 : strcmp "-del".toList "-fc".toList ≠ 0 := by decide
  have e4 : strcmp "-del".toList "-dc".toList ≠ 0 := by decide
  have e5 : strcmp "-del".toList "-fs".toList ≠ 0 := by decide
  have e6 : strcmp "-del".toList "-cp".toList ≠ 0 := by decide
  have e7 : strcmp "-del".toList "-mv".toList ≠ 0 := by decide
  have e8 : strcmp "-del".toList "-del".toList = 0 := by decide
  unfold tree_walker
  rw [if_neg (not_dnr_of_file_or_dir v hfd), if_neg (not_ns_of_file_or_dir v hfd),
    if_neg (not_not.mpr hfd), hc, if_neg e1, if_neg e2, if_neg e3, if_neg e4, if_neg e5,
    if_neg e6, if_neg e7, if_pos e8]

/-- Under `-fc` the callback adds one to the file counter for a regular file and leaves
it alone for every other entry. -/
theorem tree_walker_fc_count (cfg : Config) (s : State) (v : Visit)
    (h : strcmp cfg.g_command "-fc".toList = 0) :
    (tree_walker cfg s v).2.g_file_count =
      if v.typeflag = FTW_F then wrap_int (s.g_file_count + 1) else s.g_file_count := by
  have hc := (strcmp_eq_zero _ _).mp h
  have e1 : strcmp "-fc".toList "-ls".toList ≠ 0 := by decide
  have e2 : strcmp "-fc".toList "-ext".toList ≠ 0 := by decide
  have e3 : strcmp "-fc".toList "-fc".toList = 0 := by decide
  unfold tree_walker
  by_cases h1 : v.typeflag = FTW_DNR
  · rw [if_pos h1, h1, if_neg (by decide)]
  rw [if_neg h1]
  by_cases h2 : v.typeflag = FTW_NS
  · rw [if_pos h2, h2, if_neg (by decide)]
  rw [if_neg h2]
  by_cases h3 : ¬ (v.typeflag = FTW_F ∨ v.typeflag = FTW_D)
  · rw [if_pos h3, if_neg (fun hf => h3 (Or.inl hf))]
  rw [if_neg h3, hc, if_neg e1, if_neg e2, if_pos e3]
  by_cases h4 : v.typeflag = FTW_F
  · rw [if_pos h4, if_pos h4]
  · rw [if_neg h4, if_neg h4]

/-- Under `-dc` the callback adds one to the directory counter for a directory and leaves
it alone for every other entry. -/
theorem tree_walker_dc_count (cfg : Config) (s : State) (v : Visit)
    (h : strcmp cfg.g_command "-dc".toList = 0) :
    (tree_walker cfg s v).2.g_dir_count =
      if v.typeflag = FTW_D then wrap_int (s.g_dir_count + 1) else s.g_dir_count := by
  have hc := (strcmp_eq_zero _ _).mp h
  have e1 : strcmp "-dc".toList "-ls".toList ≠ 0 := by decide
  have e2 : strcmp "-dc".toList "-ext".toList ≠ 0 := by decide
  have e3 : strcmp "-dc".toList "-fc".toList ≠ 0 := by decide
  have e4 : strcmp "-dc".toList "-dc".toList = 0 := by decide
  unfold tree_walker
  by_cases h1 : v.typeflag = FTW_DNR
  · rw [if_pos h1, h1, if_neg (by decide)]
  rw [if_neg h1]
  by_cases h2 : v.typeflag = FTW_NS
  · rw [if_pos h2, h2, if_neg (by decide)]
  rw [if_neg h2]
  by_cases h3 : ¬ (v.typeflag = FTW_F ∨ v.typeflag = FTW_D)
  · rw [if_pos h3, if_neg (fun hf => h3 (Or.inr hf))]
  rw [if_neg h3, hc, if_neg e1, if_neg e2, if_neg e3, if_pos e4]
  by_cases h4 : v.typeflag = FTW_D
  · rw [if_pos h4, if_pos h4]
  · rw [if_neg h4, if_neg h4]

theorem wrap_int_small (x : Int) (h0 : 0 ≤ x) (h1 : x < 2 ^ 31) : wrap_int x = x := by
  unfold wrap_int
  omega

theorem walk_fc_count (cfg : Config) (h : strcmp cfg.g_command "-fc".toList = 0)
    (vs : List Visit) (s : State) (h0 : 0 ≤ s.g_file_count)
    (hb : s.g_file_count + vs.length < 2 ^ 31) :
    (walk cfg s vs).2.g_file_count
      = s.g_file_count + (vs.countP (fun v => decide (v.typeflag = FTW_F)) : Nat) := by
  induction vs generalizing s with
  | nil => simp [walk_nil]
  | cons v vs ih =>
    rw [walk_cons]
    have hstep := tree_walker_fc_count cfg s v h
    simp only [List.length_cons, Nat.cast_add, Nat.cast_one] at hb
    by_cases hf : v.typeflag = FTW_F
    · rw [if_pos hf, wrap_int_small _ (by omega) (by omega)] at hstep
      rw [ih _ (by omega) (by omega), hstep]
      simp [List.countP_cons, hf]
      omega
    · rw [if_neg hf] at hstep
      rw [ih _ (by omega) (by omega), hstep]
      simp [List.countP_cons, hf]

theorem walk_dc_count (cfg : Config) (h : strcmp cfg.g_command "-dc".toList = 0)
    (vs : List Visit) (s : State) (h0 : 0 ≤ s.g_dir_count)
    (hb : s.g_dir_count + vs.length < 2 ^ 31) :
    (walk cfg s vs).2.g_dir_count
      = s.g_dir_count + (vs.countP (fun v => decide (v.typeflag = FTW_D)) : Nat) := by
  induction vs generalizing s with
  | nil => simp [walk_nil]
  | cons v vs ih =>
    rw [walk_cons]
    have hstep := tree_walker_dc_count cfg s v h
    simp only [List.length_cons, Nat.cast_add, Nat.cast_one] at hb
    by_cases hf : v.typeflag = FTW_D
    · rw [if_pos hf, wrap_int_small _ (by omega) (by omega)] at hstep
      rw [ih _ (by omega) (by omega), hstep]
      simp [List.countP_cons, hf]
      omega
    · rw [if_neg hf] at hstep
      rw [ih _ (by omega) (by omega), hstep]
      simp [List.countP_cons, hf]

/-! ## Counting walks, the sticky flag and the exit status -/

theorem count_split (vs : List Visit) :
    non_special_count vs
      = vs.countP (fun v => decide (v.typeflag = FTW_F))
        + vs.countP (fun v => decide (v.typeflag = FTW_D))
        + stat_failure_count vs + unreadable_count vs := by
  unfold non_special_count stat_failure_count unreadable_count
  induction vs with
  | nil => rfl
  | cons v vs ih =>
    simp only [List.countP_cons, ih]
    cases h : v.typeflag <;> simp [is_special] <;> omega

/-- C9 (amended): for a walk of fewer than 2^31 entries (so that the `int` counters cannot
overflow), the file count of a count-files walk plus the directory count of a count-dirs
walk over the same entries equals the number of non-special entries, minus the entries
that could not be stat-ed, minus the unreadable directories. -/
theorem count_files_plus_count_dirs (cfg_fc cfg_dc : Config) (fs1 fs2 : FS) (vs : List Visit)
    (hfc : strcmp cfg_fc.g_command "-fc".toList = 0)
    (hdc : strcmp cfg_dc.g_command "-dc".toList = 0)
    (hlen : vs.length < 2 ^ 31) :
    (walk cfg_fc (State.start fs1) vs).2.g_file_count
        + (walk cfg_dc (State.start fs2) vs).2.g_dir_count
      = (non_special_count vs : Int) - stat_failure_count vs - unreadable_count vs := by
  have h1 := walk_fc_count cfg_fc hfc vs (State.start fs1) (by simp [State.start])
    (by simp only [State.start]; omega)
  have h2 := walk_dc_count cfg_dc hdc vs (State.start fs2) (by simp [State.start])
    (by simp only [State.start]; omega)
  rw [h1, h2, count_split]
  simp only [State.start]
  push_cast
  ring

theorem tree_walker_flag_eq (cfg : Config) (s : State) (v : Visit) :
    (tree_walker cfg s v).2.g_error_occurred = (s.g_error_occurred || entry_fails cfg s v) := by
  cases h : s.g_error_occurred with
  | true => simp [tree_walker_flag_mono cfg s v h]
  | false =>
    have hs : { s with g_error_occurred := false } = s := by
      cases s; simp at h; subst h; rfl
    simp [entry_fails, hs]

theorem walk_flag_eq (cfg : Config) (vs : List Visit) (s : State) :
    (walk cfg s vs).2.g_error_occurred = (s.g_error_occurred || any_entry_fails cfg s vs) := by
  induction vs generalizing s with
  | nil => simp [walk_nil, any_entry_fails]
  | cons v vs ih =>
    rw [walk_cons, ih, tree_walker_flag_eq]
    simp [any_entry_fails, Bool.or_assoc]

theorem walk_fst (cfg : Config) (s : State) (vs : List Visit) : (walk cfg s vs).1 = 0 := by
  rw [walk_eq_foldl]

theorem report_flag (cfg : Config) (s : State) :
    (report cfg s).g_error_occurred = s.g_error_occurred := by
  unfold report
  split_ifs <;> rfl

theorem cleanup_flag (sys : Sys) (cfg : Config) (s : State) :
    (cleanup sys cfg s).2.g_error_occurred = s.g_error_occurred := by
  unfold cleanup
  split_ifs <;> rfl

theorem run_exit_status (sys : Sys) (cfg : Config) (fs : FS)
    (hcomplete : (sys.traversal fs cfg.g_root_dir).2 = false) :
    (run sys cfg fs).1 =
      if (walk cfg (State.start fs) (sys.traversal fs cfg.g_root_dir).1).2.g_error_occurred = true
      then 1
      else if strcmp cfg.g_command "-mv".toList = 0 ∧
          (remove_directory sys
            (walk cfg (State.start fs) (sys.traversal fs cfg.g_root_dir).1).2.fs
            cfg.g_root_dir).1 ≠ 0
      then 1 else 0 := by
  unfold run
  simp only []
  rw [walk_fst, hcomplete]
  rw [if_neg (by decide)]
  generalize (walk cfg (State.start fs) (sys.traversal fs cfg.g_root_dir).1).2 = w
  by_cases hflag : w.g_error_occurred = true
  · have hc : (cleanup sys cfg w) = (0, w) := by
      unfold cleanup
      rw [if_neg (by simp [hflag])]
    rw [hc, if_neg (by simp), if_pos hflag]
    show (if (report cfg _).g_error_occurred = true then (1 : Int) else 0) = 1
    rw [report_flag, if_pos hflag]
  · rw [if_neg hflag]
    have hfalse : w.g_error_occurred = false := by simpa using hflag
    by_cases hmv : strcmp cfg.g_command "-mv".toList = 0
    · have hc : (cleanup sys cfg w) =
          ((remove_directory sys w.fs cfg.g_root_dir).1,
            { w with fs := (remove_directory sys w.fs cfg.g_root_dir).2 }) := by
        unfold cleanup
        rw [if_pos ⟨hmv, hfalse⟩]
      rw [hc]
      by_cases hrm : (remove_directory sys w.fs cfg.g_root_dir).1 ≠ 0
      · rw [if_pos hrm, if_pos ⟨hmv, hrm⟩]
      · have hr : (if strcmp cfg.g_command "-mv".toList = 0 ∧
            (remove_directory sys w.fs cfg.g_root_dir).1 ≠ 0 then (1 : Int) else 0) = 0 :=
          if_neg (fun h => hrm h.2)
        rw [hr, if_neg hrm]
        show (if (report cfg _).g_error_occurred = true then (1 : Int) else 0) = 0
        rw [report_flag, if_neg (by simp [hfalse])]
    · have hc : (cleanup sys cfg w) = (0, w) := by
        unfold cleanup
        rw [if_neg (fun h => hmv h.1)]
      have hr : (if strcmp cfg.g_command "-mv".toList = 0 ∧
          (remove_directory sys w.fs cfg.g_root_dir).1 ≠ 0 then (1 : Int) else 0) = 0 :=
        if_neg (fun h => hmv h.1)
      rw [hr, hc, if_neg (by simp)]
      show (if (report cfg _).g_error_occurred = true then (1 : Int) else 0) = 0
      rw [report_flag, if_neg (by simp [hfalse])]

/-! ## The claims about the callback and the walk -/

/-- C9 (counterexample): a walk that meets one unreadable directory counts no file and no
directory, yet one non-special entry was visited and none failed to be stat-ed. -/
theorem count_identity_fails_on_unreadable_directory :
    (walk { ex_mv_cfg with g_command := "-fc".toList } (State.start ex_tree)
          [ex_unreadable_visit]).2.g_file_count
        + (walk { ex_mv_cfg with g_command := "-dc".toList } (State.start ex_tree)
          [ex_unreadable_visit]).2.g_dir_count
      ≠ (non_special_count [ex_unreadable_visit] : Int)
          - stat_failure_count [ex_unreadable_visit] := by
  decide

/-- C9 (amended), at a walk over a directory, a file and an unreadable directory. -/
theorem count_files_plus_count_dirs_witness :
    strcmp "-fc".toList "-fc".toList = 0 ∧ strcmp "-dc".toList "-dc".toList = 0 ∧
    [ex_dir_visit Env.calm "/home/u/src".toList,
      ex_file_visit Env.calm "/home/u/src/f".toList, ex_unreadable_visit].length < 2 ^ 31 ∧
    (walk { ex_mv_cfg with g_command := "-fc".toList } (State.start ex_tree)
          [ex_dir_visit Env.calm "/home/u/src".toList,
            ex_file_visit Env.calm "/home/u/src/f".toList, ex_unreadable_visit]).2.g_file_count
        + (walk { ex_mv_cfg with g_command := "-dc".toList } (State.start ex_tree)
          [ex_dir_visit Env.calm "/home/u/src".toList,
            ex_file_visit Env.calm "/home/u/src/f".toList, ex_unreadable_visit]).2.g_dir_count
      = (non_special_count [ex_dir_visit Env.calm "/home/u/src".toList,
            ex_file_visit Env.calm "/home/u/src/f".toList, ex_unreadable_visit] : Int)
          - stat_failure_count [ex_dir_visit Env.calm "/home/u/src".toList,
            ex_file_visit Env.calm "/home/u/src/f".toList, ex_unreadable_visit]
          - unreadable_count [ex_dir_visit Env.calm "/home/u/src".toList,
            ex_file_visit Env.calm "/home/u/src/f".toList, ex_unreadable_visit] :=
  ⟨by decide, by decide, by decide,
    count_files_plus_count_dirs { ex_mv_cfg with g_command := "-fc".toList }
      { ex_mv_cfg with g_command := "-dc".toList } ex_tree ex_tree _
      (by decide) (by decide) (by decide)⟩

theorem tree_walker_error_entry (cfg : Config) (s : State) (v : Visit)
    (h : v.typeflag = FTW_DNR ∨ v.typeflag = FTW_NS) :
    tree_walker cfg s v = (0, { s with g_error_occurred := true }) := by
  unfold tree_walker
  rcases h with h | h
  · rw [if_pos h]
  · rw [if_neg (by rw [h]; decide), if_pos h]

theorem tree_walker_cp_too_long (cfg : Config) (s : State) (v : Visit)
    (h : PATH_MAX ≤ strlen (cp_dest_path cfg v.path)) :
    tree_walker_cp cfg s v = (0, { s with g_error_occurred := true }) := by
  unfold tree_walker_cp
  rw [if_pos h]

theorem tree_walker_cp_dir (cfg : Config) (s : State) (v : Visit)
    (hlen : strlen (cp_dest_path cfg v.path) < PATH_MAX) (hd : v.typeflag = FTW_D) :
    tree_walker_cp cfg s v =
      (0, { s with
        fs := (create_directory v.env s.fs (some (cp_dest_path cfg v.path))).2,
        g_error_occurred :=
          s.g_error_occurred ||
            !(create_directory v.env s.fs (some (cp_dest_path cfg v.path))).1 }) := by
  unfold tree_walker_cp
  rw [if_neg (by omega), if_pos hd]
  rcases hr : create_directory v.env s.fs (some (cp_dest_path cfg v.path)) with ⟨b, fs1⟩
  cases b <;> simp

theorem tree_walker_cp_file (cfg : Config) (s : State) (v : Visit)
    (hlen : strlen (cp_dest_path cfg v.path) < PATH_MAX) (hf : v.typeflag = FTW_F)
    (hx : ¬ (cfg.g_extension.isSome ∧ has_extension (some v.path) cfg.g_extension = true)) :
    tree_walker_cp cfg s v =
      (0, { s with
        fs := (copy_file v.env s.fs v.path (cp_dest_path cfg v.path)).2,
        g_error_occurred :=
          s.g_error_occurred || !(copy_file v.env s.fs v.path (cp_dest_path cfg v.path)).1 }) := by
  unfold tree_walker_cp
  rw [if_neg (by omega), if_neg (by rw [hf]; decide), if_pos hf, if_neg hx]
  rcases hr : copy_file v.env s.fs v.path (cp_dest_path cfg v.path) with ⟨b, fs1⟩
  cases b <;> simp

theorem tree_walker_mv_file_copied (cfg : Config) (s : State) (v : Visit)
    (hlen : strlen (mv_dest_path cfg v.path) < PATH_MAX) (hf : v.typeflag = FTW_F)
    (hr : rename v.env s.fs v.path (mv_dest_path cfg v.path) = none) :
    tree_walker_mv cfg s v =
      (0, { s with
        fs := (copy_file v.env s.fs v.path (mv_dest_path cfg v.path)).2,
        g_error_occurred :=
          s.g_error_occurred || !(copy_file v.env s.fs v.path (mv_dest_path cfg v.path)).1 }) := by
  unfold tree_walker_mv
  rw [if_neg (by omega), if_pos hf, hr]
  rcases hc : copy_file v.env s.fs v.path (mv_dest_path cfg v.path) with ⟨b, fs1⟩
  cases b <;> simp

theorem tree_walker_mv_dir (cfg : Config) (s : State) (v : Visit)
    (hlen : strlen (mv_dest_path cfg v.path) < PATH_MAX) (hd : v.typeflag = FTW_D)
    (hroot : strcmp v.path cfg.g_root_dir ≠ 0) :
    tree_walker_mv cfg s v =
      (0, { s with
        fs := (create_directory v.env s.fs (some (mv_dest_path cfg v.path))).2,
        g_error_occurred :=
          s.g_error_occurred ||
            !(create_directory v.env s.fs (some (mv_dest_path cfg v.path))).1 }) := by
  unfold tree_walker_mv
  rw [if_neg (by omega), if_neg (by rw [hd]; decide), if_pos hd, if_pos hroot]
  rcases hr : create_directory v.env s.fs (some (mv_dest_path cfg v.path)) with ⟨b, fs1⟩
  cases b <;> simp

/-- C7 (counterexample): a move whose walk handles every entry without error but whose
cleanup cannot remove the source exits with status 1 although no entry set the flag. -/
theorem exit_status_one_without_entry_failure :
    (main (Sys.snapshot (some ex_home) ex_env_no_remove) ex_tree ex_mv_argv).1 = 1 ∧
    (main (Sys.snapshot (some ex_home) ex_env_no_remove) ex_tree
      ex_mv_argv).2.g_error_occurred = false ∧
    (setup (Sys.snapshot (some ex_home) ex_env_no_remove) ex_tree ex_mv_argv).2 = ex_tree ∧
    any_entry_fails ex_mv_cfg (State.start ex_tree)
      ((Sys.snapshot (some ex_home) ex_env_no_remove).traversal ex_tree
        ex_mv_cfg.g_root_dir).1 = false := by
  decide

/-- C7 (amended): no call of the callback clears a set error flag; after any walk the flag
is the flag before it or-ed with the failures of the entries; and when the traversal
completes, the exit status is 1 if some entry failed, otherwise 1 if the command is a move
whose cleanup `remove_directory` fails, and 0 in every other case. -/
theorem sticky_flag_and_exit_status (sys : Sys) (cfg : Config) (fs : FS) :
    (∀ s v, s.g_error_occurred = true → (tree_walker cfg s v).2.g_error_occurred = true) ∧
    (∀ s vs, (walk cfg s vs).2.g_error_occurred
        = (s.g_error_occurred || any_entry_fails cfg s vs)) ∧
    ((sys.traversal fs cfg.g_root_dir).2 = false →
      (run sys cfg fs).1 =
        if any_entry_fails cfg (State.start fs) (sys.traversal fs cfg.g_root_dir).1 = true
        then 1
        else if strcmp cfg.g_command "-mv".toList = 0 ∧
            (remove_directory sys
              (walk cfg (State.start fs) (sys.traversal fs cfg.g_root_dir).1).2.fs
              cfg.g_root_dir).1 ≠ 0
        then 1 else 0) := by
  refine ⟨fun s v h => tree_walker_flag_mono cfg s v h, fun s vs => walk_flag_eq cfg vs s, ?_⟩
  intro hcomplete
  rw [run_exit_status sys cfg fs hcomplete, walk_flag_eq]
  simp [State.start]

theorem cp_dest_path_eq (cfg : Config) (dest rem : CStr)
    (hdest : cfg.g_destination = some dest) :
    cp_dest_path cfg (cfg.g_root_dir ++ rem) = mirrored_path dest rem := by
  unfold cp_dest_path relative_path strlen fmt_s mirrored_path
  rw [hdest, List.drop_left]
  cases rem with
  | nil => simp
  | cons a r =>
    by_cases ha : a = '/'
    · subst ha; simp
    · simp [ha]

/-- C4: under `-cp`, for a regular file or directory whose path is the root followed by a
remainder, the destination path is the mirrored path (destination root, one slash, the
remainder without one leading slash); when that path does not fit into `PATH_MAX` bytes the
callback only sets the error flag (no directory is created, no file copied) and returns 0;
when it fits, the directory is created at, or the file copied to, exactly that path. -/
theorem copy_uses_mirrored_path (cfg : Config) (s : State) (v : Visit) (dest rem : CStr)
    (hcp : strcmp cfg.g_command "-cp".toList = 0)
    (hdest : cfg.g_destination = some dest)
    (hpath : v.path = cfg.g_root_dir ++ rem)
    (hfd : v.typeflag = FTW_F ∨ v.typeflag = FTW_D) :
    cp_dest_path cfg v.path = mirrored_path dest rem ∧
    (PATH_MAX ≤ strlen (mirrored_path dest rem) →
      tree_walker cfg s v = (0, { s with g_error_occurred := true })) ∧
    (strlen (mirrored_path dest rem) < PATH_MAX → v.typeflag = FTW_D →
      tree_walker cfg s v =
        (0, { s with
          fs := (create_directory v.env s.fs (some (mirrored_path dest rem))).2,
          g_error_occurred :=
            s.g_error_occurred ||
              !(create_directory v.env s.fs (some (mirrored_path dest rem))).1 })) ∧
    (strlen (mirrored_path dest rem) < PATH_MAX → v.typeflag = FTW_F →
      ¬ (cfg.g_extension.isSome ∧ has_extension (some v.path) cfg.g_extension = true) →
      tree_walker cfg s v =
        (0, { s with
          fs := (copy_file v.env s.fs v.path (mirrored_path dest rem)).2,
          g_error_occurred :=
            s.g_error_occurred ||
              !(copy_file v.env s.fs v.path (mirrored_path dest rem)).1 })) := by
  have hm : cp_dest_path cfg v.path = mirrored_path dest rem := by
    rw [hpath]; exact cp_dest_path_eq cfg dest rem hdest
  refine ⟨hm, ?_, ?_, ?_⟩
  · intro hlong
    rw [tree_walker_of_cp cfg s v hcp hfd]
    exact tree_walker_cp_too_long cfg s v (by rw [hm]; exact hlong)
  · intro hlen hd
    rw [tree_walker_of_cp cfg s v hcp hfd, tree_walker_cp_dir cfg s v (by rw [hm]; exact hlen) hd,
      hm]
  · intro hlen hf hx
    rw [tree_walker_of_cp cfg s v hcp hfd,
      tree_walker_cp_file cfg s v (by rw [hm]; exact hlen) hf hx, hm]

/-- C4, at the file `/home/u/src/a/x` of the example tree copied towards `/home/u/dst`. -/
theorem copy_uses_mirrored_path_witness :
    strcmp ex_cp_cfg.g_command "-cp".toList = 0 ∧
    ex_cp_cfg.g_destination = some "/home/u/dst".toList ∧
    (ex_file_visit Env.calm "/home/u/src/a/x".toList).path
      = ex_cp_cfg.g_root_dir ++ "/a/x".toList ∧
    cp_dest_path ex_cp_cfg (ex_file_visit Env.calm "/home/u/src/a/x".toList).path
      = "/home/u/dst/a/x".toList :=
  ⟨by decide, rfl, by decide,
    (copy_uses_mirrored_path ex_cp_cfg (State.start ex_tree)
      (ex_file_visit Env.calm "/home/u/src/a/x".toList) "/home/u/dst".toList "/a/x".toList
      (by decide) rfl (by decide) (Or.inl rfl)).1.trans (by decide)⟩

/-- C10: the callback hands the full entry path to `has_extension` (listing by extension,
the exclusion test of copy, deletion by extension); for an extension without a slash, in
particular for each of `.c`, `.txt`, `.pdf`, the test on the full path gives the same
answer as the test on the last component of the path, so dots in directory names play no
part. -/
theorem extension_test_sees_last_component (cfg : Config) (s : State) (v : Visit) :
    (∀ path ext : CStr, '/' ∉ ext →
      has_extension (some path) (some ext)
        = has_extension (some (lastComponent path)) (some ext)) ∧
    (∀ path ext : CStr, validate_extension (some ext) = true →
      has_extension (some path) (some ext)
        = has_extension (some (lastComponent path)) (some ext)) ∧
    (strcmp cfg.g_command "-ext".toList = 0 → v.typeflag = FTW_F →
      tree_walker cfg s v =
        if has_extension (some v.path) cfg.g_extension = true then
          (0, { s with stdout := s.stdout ++ [v.path] })
        else (0, s)) ∧
    (strcmp cfg.g_command "-cp".toList = 0 → v.typeflag = FTW_F →
      strlen (cp_dest_path cfg v.path) < PATH_MAX → cfg.g_extension.isSome = true →
      has_extension (some v.path) cfg.g_extension = true →
      tree_walker cfg s v = (0, s)) ∧
    (strcmp cfg.g_command "-del".toList = 0 → v.typeflag = FTW_F →
      tree_walker cfg s v =
        if has_extension (some v.path) cfg.g_extension = true then
          match unlink v.env s.fs v.path with
          | some fs1 => ((0 : Int), { s with fs := fs1 })
          | none => ((0 : Int), { s with g_error_occurred := true })
        else ((0 : Int), s)) := by
  refine ⟨fun path ext h => has_extension_lastComponent path ext h,
    fun path ext h => has_extension_lastComponent path ext (validate_extension_no_slash ext h),
    ?_, ?_, ?_⟩
  · intro hc hf
    rw [tree_walker_of_ext cfg s v hc (Or.inl hf)]
    by_cases hx : has_extension (some v.path) cfg.g_extension = true
    · rw [if_pos ⟨hf, hx⟩, if_pos hx]
    · rw [if_neg (fun h => hx h.2), if_neg hx]
  · intro hc hf hlen hsome hx
    rw [tree_walker_of_cp cfg s v hc (Or.inl hf)]
    unfold tree_walker_cp
    rw [if_neg (by omega), if_neg (by rw [hf]; decide), if_pos hf, if_pos ⟨hsome, hx⟩]
  · intro hc hf
    rw [tree_walker_of_del cfg s v hc (Or.inl hf)]
    unfold tree_walker_del
    by_cases hx : has_extension (some v.path) cfg.g_extension = true
    · rw [if_pos ⟨hf, hx⟩, if_pos hx]
    · rw [if_neg (fun h => hx h.2), if_neg hx]

/-- C1 (the code at the failing input): with `HOME=/home/user`, the existing directory
`/home/user2` is accepted, although it is neither the home directory nor below it. -/
theorem validate_directory_accepts_sibling_of_home :
    validate_directory (some "/home/user".toList) Env.calm
        [("/home".toList, Node.dir), ("/home/user".toList, Node.dir),
          ("/home/user2".toList, Node.dir)]
        (some "/home/user2".toList) = true ∧
    is_under "/home/user".toList "/home/user2".toList = false := by
  decide

/-! ## The file-system table and path resolution -/

theorem fs_find_put (fs : FS) (k : CStr) (n : Node) (k2 : CStr) :
    fs_find (fs_put fs k n) k2 = if k = k2 then some n else fs_find fs k2 := by
  induction fs with
  | nil =>
    by_cases h : k = k2 <;> simp [fs_put, fs_find, h]
  | cons e rest ih =>
    obtain ⟨q, m⟩ := e
    by_cases hq : q = k
    · subst hq
      by_cases h : q = k2 <;> simp [fs_put, fs_find, h]
    · by_cases hq2 : q = k2
      · subst hq2
        have hne : ¬ k = q := fun e => hq e.symm
        simp [fs_put, fs_find, hq, hne]
      · simp [fs_put, fs_find, hq, hq2, ih]

theorem fs_find_erase (fs : FS) (k k2 : CStr) :
    fs_find (fs_erase fs k) k2 = if k = k2 then none else fs_find fs k2 := by
  unfold fs_erase
  induction fs with
  | nil => simp [fs_find]
  | cons e rest ih =>
    obtain ⟨q, m⟩ := e
    by_cases hq : q = k
    · subst hq
      by_cases h : q = k2
      · subst h
        simpa [List.filter_cons, fs_find] using ih
      · simp [List.filter_cons, fs_find, h] at ih ⊢
        exact ih
    · by_cases hq2 : q = k2
      · subst hq2
        have hne : ¬ k = q := fun e => hq e.symm
        simp [List.filter_cons, fs_find, hq, hne]
      · simp only [List.filter_cons, hq, ne_eq, not_false_eq_true, decide_True, if_true,
          fs_find, hq2, if_false]
        exact ih

theorem node_key_file (cwd : CStr) (fs : FS) (k : CStr) (c : List Char)
    (h : node_key cwd fs k = some (Node.file c)) :
    is_permanent cwd k = false ∧ fs_find fs k = some (Node.file c) := by
  unfold node_key at h
  cases hp : is_permanent cwd k with
  | true => rw [hp] at h; simp at h
  | false => rw [hp] at h; exact ⟨rfl, by simpa using h⟩

theorem node_key_none (cwd : CStr) (fs : FS) (k : CStr) (h : node_key cwd fs k = none) :
    is_permanent cwd k = false ∧ fs_find fs k = none := by
  unfold node_key at h
  cases hp : is_permanent cwd k with
  | true => rw [hp] at h; simp at h
  | false => rw [hp] at h; exact ⟨rfl, by simpa using h⟩

theorem node_key_of_find_dir (cwd : CStr) (fs : FS) (k : CStr)
    (h : fs_find fs k = some Node.dir) : node_key cwd fs k = some Node.dir := by
  unfold node_key
  split_ifs
  · rfl
  · exact h

/-- The key a resolution ends at, whether or not something exists there. -/
theorem resolve_from_found (cwd : CStr) (fs : FS) (rest cur : List CStr) (k : CStr) (n : Node)
    (h : resolve_from cwd fs cur rest = Lookup.found k n) : node_key cwd fs k = some n := by
  induction rest generalizing cur with
  | nil =>
    unfold resolve_from at h
    cases hn : node_key cwd fs (key_of cur) with
    | none => rw [hn] at h; cases h
    | some m =>
      rw [hn] at h
      simp only [Lookup.found.injEq] at h
      rw [← h.1, ← h.2, hn]
  | cons c rest ih =>
    unfold resolve_from at h
    cases hn : node_key cwd fs (key_of cur) with
    | none => rw [hn] at h; cases h
    | some m =>
      cases m with
      | file d => rw [hn] at h; cases h
      | dir =>
        rw [hn] at h
        simp only at h
        split_ifs at h
        · exact ih _ h
        · exact ih _ h
        · exact ih _ h

theorem resolve_from_absent (cwd : CStr) (fs : FS) (rest cur : List CStr) (k : CStr)
    (h : resolve_from cwd fs cur rest = Lookup.absent k) : node_key cwd fs k = none := by
  induction rest generalizing cur with
  | nil =>
    unfold resolve_from at h
    cases hn : node_key cwd fs (key_of cur) with
    | none =>
      rw [hn] at h
      simp only [Lookup.absent.injEq] at h
      rw [← h, hn]
    | some m => rw [hn] at h; cases h
  | cons c rest ih =>
    unfold resolve_from at h
    cases hn : node_key cwd fs (key_of cur) with
    | none => rw [hn] at h; cases h
    | some m =>
      cases m with
      | file d => rw [hn] at h; cases h
      | dir =>
        rw [hn] at h
        simp only at h
        split_ifs at h
        · exact ih _ h
        · exact ih _ h
        · exact ih _ h

theorem reached_key (cwd : CStr) (fs fs2 : FS) (k k2 : CStr)
    (h : reached cwd fs k = reached cwd fs2 k2) : k = k2 := by
  unfold reached at h
  cases h1 : node_key cwd fs k <;> cases h2 : node_key cwd fs2 k2 <;> rw [h1, h2] at h <;>
    simp at h
  · exact h
  · exact h.1

theorem reached_cases (cwd : CStr) (fs : FS) (k : CStr) :
    (∃ n, reached cwd fs k = Lookup.found k n) ∨ reached cwd fs k = Lookup.absent k := by
  unfold reached
  cases node_key cwd fs k with
  | none => exact Or.inr rfl
  | some n => exact Or.inl ⟨n, rfl⟩

theorem reached_ne_enoent (cwd : CStr) (fs : FS) (k : CStr) :
    ¬ Lookup.enoent = reached cwd fs k := by
  intro h
  rcases reached_cases cwd fs k with ⟨n, hn⟩ | hn <;> rw [hn] at h <;> cases h

theorem reached_ne_enotdir (cwd : CStr) (fs : FS) (k : CStr) :
    ¬ Lookup.enotdir = reached cwd fs k := by
  intro h
  rcases reached_cases cwd fs k with ⟨n, hn⟩ | hn <;> rw [hn] at h <;> cases h

theorem resolve_from_nil (cwd : CStr) (fs : FS) (cur : List CStr) :
    resolve_from cwd fs cur [] = reached cwd fs (key_of cur) := by
  unfold resolve_from reached
  rfl

/-- Resolution depends on the table only through its directories: in a table that keeps
all directories, a path that led to key `k` still leads to key `k`. -/
theorem resolve_from_mono (cwd : CStr) (fs fs2 : FS)
    (hdir : ∀ k2, node_key cwd fs k2 = some Node.dir → node_key cwd fs2 k2 = some Node.dir)
    (rest cur : List CStr) (k : CStr)
    (h : resolve_from cwd fs cur rest = reached cwd fs k) :
    resolve_from cwd fs2 cur rest = reached cwd fs2 k := by
  induction rest generalizing cur with
  | nil =>
    rw [resolve_from_nil] at h ⊢
    rw [reached_key cwd fs fs (key_of cur) k h]
  | cons c rest ih =>
    unfold resolve_from at h ⊢
    cases hn : node_key cwd fs (key_of cur) with
    | none =>
      rw [hn] at h
      exact absurd h (reached_ne_enoent cwd fs k)
    | some m =>
      cases m with
      | file d =>
        rw [hn] at h
        exact absurd h (reached_ne_enotdir cwd fs k)
      | dir =>
        rw [hn] at h
        rw [hdir _ hn]
        simp only at h ⊢
        split_ifs at h ⊢
        · exact ih _ h
        · exact ih _ h
        · exact ih _ h

theorem resolve_reached (cwd : CStr) (fs : FS) (p k : CStr)
    (h : (∃ n, resolve cwd fs p = Lookup.found k n) ∨ resolve cwd fs p = Lookup.absent k) :
    resolve cwd fs p = reached cwd fs k := by
  unfold resolve at h ⊢
  by_cases hp : p = []
  · rw [if_pos hp] at h
    rcases h with ⟨n, h⟩ | h <;> cases h
  · rw [if_neg hp] at h ⊢
    rcases h with ⟨n, h⟩ | h
    · rw [h]
      unfold reached
      rw [resolve_from_found cwd fs _ _ k n h]
    · rw [h]
      unfold reached
      rw [resolve_from_absent cwd fs _ _ k h]

theorem resolve_mono (cwd : CStr) (fs fs2 : FS)
    (hdir : ∀ k2, node_key cwd fs k2 = some Node.dir → node_key cwd fs2 k2 = some Node.dir)
    (p k : CStr) (h : resolve cwd fs p = reached cwd fs k) :
    resolve cwd fs2 p = reached cwd fs2 k := by
  unfold resolve at h ⊢
  by_cases hp : p = []
  · rw [if_pos hp] at h
    exact absurd h (reached_ne_enoent cwd fs k)
  · rw [if_neg hp] at h ⊢
    exact resolve_from_mono cwd fs fs2 hdir _ _ k h

/-- What a successful lookup says about the table. -/
theorem lookup_found_file (cwd : CStr) (fs : FS) (p k : CStr) (c : List Char)
    (h : lookup cwd fs p = Lookup.found k (Node.file c)) :
    resolve cwd fs p = reached cwd fs k ∧ names_directory p = false ∧
      is_permanent cwd k = false ∧ fs_find fs k = some (Node.file c) := by
  unfold lookup at h
  cases hr : resolve cwd fs p with
  | found k2 n =>
    rw [hr] at h
    cases n with
    | file d =>
      simp only at h
      split_ifs at h with hnd
      simp only [Lookup.found.injEq, Node.file.injEq] at h
      obtain ⟨hk, hc⟩ := h
      subst hk; subst hc
      have hres := resolve_reached cwd fs p k2 (Or.inl ⟨_, hr⟩)
      have hnode : node_key cwd fs k2 = some (Node.file d) := by
        rw [hres] at hr
        unfold reached at hr
        cases hn : node_key cwd fs k2 with
        | none => rw [hn] at hr; cases hr
        | some m => rw [hn] at hr; simp at hr; rw [hr]
      obtain ⟨h1, h2⟩ := node_key_file cwd fs k2 d hnode
      exact ⟨hr ▸ hres, by simpa using hnd, h1, h2⟩
    | dir => simp at h
  | absent k2 => rw [hr] at h; simp at h
  | enoent => rw [hr] at h; simp at h
  | enotdir => rw [hr] at h; simp at h

theorem lookup_absent (cwd : CStr) (fs : FS) (p k : CStr)
    (h : lookup cwd fs p = Lookup.absent k) :
    resolve cwd fs p = reached cwd fs k ∧ is_permanent cwd k = false ∧ fs_find fs k = none := by
  unfold lookup at h
  cases hr : resolve cwd fs p with
  | found k2 n =>
    rw [hr] at h
    cases n with
    | file d =>
      simp only at h
      split_ifs at h
    | dir => simp at h
  | absent k2 =>
    rw [hr] at h
    simp only [Lookup.absent.injEq] at h
    subst h
    have hres := resolve_reached cwd fs p k2 (Or.inr hr)
    have hnode : node_key cwd fs k2 = none := by
      rw [hres] at hr
      unfold reached at hr
      cases hn : node_key cwd fs k2 with
      | none => rfl
      | some m => rw [hn] at hr; cases hr
    obtain ⟨h1, h2⟩ := node_key_none cwd fs k2 hnode
    exact ⟨hr ▸ hres, h1, h2⟩
  | enoent => rw [hr] at h; simp at h
  | enotdir => rw [hr] at h; simp at h

/-- After a file has been put where no directory was, a path that led there finds it. -/
theorem lookup_after_put (cwd : CStr) (fs fs2 : FS) (p k : CStr) (d : List Char)
    (hres : resolve cwd fs p = reached cwd fs k)
    (hnd : names_directory p = false) (hperm : is_permanent cwd k = false)
    (hdir : ∀ k2, node_key cwd fs k2 = some Node.dir → node_key cwd fs2 k2 = some Node.dir)
    (hput : fs_find fs2 k = some (Node.file d)) :
    lookup cwd fs2 p = Lookup.found k (Node.file d) := by
  have h2 := resolve_mono cwd fs fs2 hdir p k hres
  have hnode : node_key cwd fs2 k = some (Node.file d) := by
    unfold node_key
    rw [hperm]
    simpa using hput
  unfold lookup
  rw [h2]
  unfold reached
  rw [hnode]
  simp [hnd]

/-! ## `copy_file` -/

theorem copy_loop_true (wlimit : Option Nat) (fuel : Nat) (input out : List Char)
    (hfuel : input.length ≤ fuel) (h : (copy_loop wlimit fuel input out).1 = true) :
    (copy_loop wlimit fuel input out).2 = out ++ input := by
  induction fuel generalizing input out with
  | zero =>
    have : input = [] := List.length_eq_zero.mp (by omega)
    subst this
    simp [copy_loop]
  | succ fuel ih =>
    simp only [copy_loop] at h ⊢
    by_cases hb : (input.take 8192).length > 0
    · rw [if_pos hb] at h ⊢
      split_ifs at h ⊢ with hw
      have hlen : (input.drop 8192).length ≤ fuel := by
        rw [List.length_drop]
        rw [List.length_take] at hb
        omega
      rw [ih _ _ hlen h, List.append_assoc, List.take_append_drop]
    · rw [if_neg hb] at h ⊢
      have : input = [] := by
        rw [List.length_take] at hb
        have : input.length = 0 := by omega
        exact List.length_eq_zero.mp this
      subst this
      simp

/-- The counter of `copy_loop` never cuts the loop short: any counter that is at least the
length of the input gives the same result. -/
theorem copy_loop_fuel (wlimit : Option Nat) (f1 f2 : Nat) (input out : List Char)
    (h1 : input.length ≤ f1) (h2 : input.length ≤ f2) :
    copy_loop wlimit f1 input out = copy_loop wlimit f2 input out := by
  induction f1 generalizing f2 input out with
  | zero =>
    have : input = [] := List.length_eq_zero.mp (by omega)
    subst this
    cases f2 <;> simp [copy_loop]
  | succ f1 ih =>
    cases f2 with
    | zero =>
      have : input = [] := List.length_eq_zero.mp (by omega)
      subst this
      simp [copy_loop]
    | succ f2 =>
      simp only [copy_loop]
      by_cases hb : (input.take 8192).length > 0
      · rw [if_pos hb, if_pos hb]
        have hlen1 : (input.drop 8192).length ≤ f1 := by
          rw [List.length_drop]; rw [List.length_take] at hb; omega
        have hlen2 : (input.drop 8192).length ≤ f2 := by
          rw [List.length_drop]; rw [List.length_take] at hb; omega
        rw [ih f2 _ _ hlen1 hlen2]
      · rw [if_neg hb, if_neg hb]

theorem dirs_kept_put (cwd : CStr) (fs : FS) (kd : CStr) (n : Node)
    (hnd : ¬ fs_find fs kd = some Node.dir) (k2 : CStr)
    (h : node_key cwd fs k2 = some Node.dir) :
    node_key cwd (fs_put fs kd n) k2 = some Node.dir := by
  unfold node_key at h ⊢
  by_cases hp : is_permanent cwd k2 = true
  · rw [if_pos hp]
  · rw [if_neg hp] at h ⊢
    have hne : ¬ kd = k2 := fun e => hnd (by rw [e]; exact h)
    rw [fs_find_put, if_neg hne]
    exact h

theorem fopen_write_some (env : Env) (fs fs1 : FS) (dst kd : CStr)
    (h : fopen_write env fs dst = some (kd, fs1)) :
    fs1 = fs_put fs kd (Node.file []) ∧ resolve env.cwd fs dst = reached env.cwd fs kd ∧
      names_directory dst = false ∧ is_permanent env.cwd kd = false ∧
      ¬ fs_find fs kd = some Node.dir ∧ key_at env.cwd fs dst = some kd := by
  unfold fopen_write at h
  by_cases hf : env.fopen_write_fails dst = true
  · rw [if_pos hf] at h; cases h
  rw [if_neg hf] at h
  cases hl : lookup env.cwd fs dst with
  | found k n =>
    rw [hl] at h
    cases n with
    | dir => simp at h
    | file c =>
      simp only [Option.some.injEq, Prod.mk.injEq] at h
      obtain ⟨hk, hfs⟩ := h
      subst hk
      obtain ⟨h1, h2, h3, h4⟩ := lookup_found_file env.cwd fs dst k c hl
      refine ⟨hfs.symm, h1, h2, h3, by rw [h4]; simp, ?_⟩
      unfold key_at
      rw [hl]
  | absent k =>
    rw [hl] at h
    simp only at h
    by_cases hnd : names_directory dst = true
    · rw [if_pos hnd] at h; cases h
    rw [if_neg hnd] at h
    simp only [Option.some.injEq, Prod.mk.injEq] at h
    obtain ⟨hk, hfs⟩ := h
    subst hk
    obtain ⟨h1, h3, h4⟩ := lookup_absent env.cwd fs dst k hl
    refine ⟨hfs.symm, h1, by simpa using hnd, h3, by rw [h4]; simp, ?_⟩
    unfold key_at
    rw [hl]
  | enoent => rw [hl] at h; simp at h
  | enotdir => rw [hl] at h; simp at h

theorem copy_file_not_opened (env : Env) (fs : FS) (src dst : CStr)
    (h : fopen_read env fs src = none ∨ fopen_write env fs dst = none) :
    copy_file env fs src dst = (false, fs) := by
  unfold copy_file
  cases hr : fopen_read env fs src with
  | none => rfl
  | some ks =>
    rcases h with h | h
    · rw [hr] at h; cases h
    · simp only
      rw [h]

theorem copy_file_opened (env : Env) (fs fs1 : FS) (src dst ks kd : CStr)
    (hr : fopen_read env fs src = some ks) (hw : fopen_write env fs dst = some (kd, fs1)) :
    copy_file env fs src dst = copy_opened env fs1 ks kd src dst := by
  unfold copy_file
  rw [hr]
  simp only
  rw [hw]

/-- The `unlink` that ends a failed copy removes the file just written. -/
theorem unlink_after_write (env : Env) (fs : FS) (dst kd : CStr) (d : List Char)
    (hres : resolve env.cwd fs dst = reached env.cwd fs kd)
    (hnd : names_directory dst = false) (hperm : is_permanent env.cwd kd = false)
    (hdir : ¬ fs_find fs kd = some Node.dir) :
    unlink env (fs_put (fs_put fs kd (Node.file [])) kd (Node.file d)) dst
      = if env.unlink_fails dst = true then none
        else some (fs_erase (fs_put (fs_put fs kd (Node.file [])) kd (Node.file d)) kd) := by
  have hl : lookup env.cwd (fs_put (fs_put fs kd (Node.file [])) kd (Node.file d)) dst
      = Lookup.found kd (Node.file d) := by
    apply lookup_after_put env.cwd fs _ dst kd d hres hnd hperm
    · intro k2 h2
      apply dirs_kept_put
      · rw [fs_find_put, if_pos rfl]; simp
      · exact dirs_kept_put env.cwd fs kd _ hdir k2 h2
    · rw [fs_find_put, if_pos rfl]
  unfold unlink
  rw [hl]

/-- The file system after `copy_file` differs from the one before at most at the key the
destination path leads to. -/
theorem copy_file_frame (env : Env) (fs : FS) (src dst k : CStr)
    (hk : ¬ key_at env.cwd fs dst = some k) :
    fs_find (copy_file env fs src dst).2 k = fs_find fs k := by
  cases hr : fopen_read env fs src with
  | none => rw [copy_file_not_opened env fs src dst (Or.inl hr)]
  | some ks =>
    cases hw : fopen_write env fs dst with
    | none => rw [copy_file_not_opened env fs src dst (Or.inr hw)]
    | some r =>
      obtain ⟨kd, fs1⟩ := r
      obtain ⟨hfs1, hres, hnd, hperm, hdir, hkey⟩ := fopen_write_some env fs fs1 dst kd hw
      have hne : ¬ kd = k := fun e => hk (by rw [hkey, e])
      rw [copy_file_opened env fs fs1 src dst ks kd hr hw]
      unfold copy_opened
      simp only
      subst hfs1
      split_ifs with hs
      · simp only
        rw [fs_find_put, if_neg hne, fs_find_put, if_neg hne]
      · simp only
        rw [unlink_after_write env fs dst kd _ hres hnd hperm hdir]
        split_ifs
        · simp only [Option.getD_none]
          rw [fs_find_put, if_neg hne, fs_find_put, if_neg hne]
        · simp only [Option.getD_some]
          rw [fs_find_erase, if_neg hne, fs_find_put, if_neg hne, fs_find_put, if_neg hne]

/-- C6 (the code at the failing input): copying the five bytes of `/home/u/src/a/x` to
`/home/u/dst/x` when the flush at `fclose` fails: every `fwrite` reports the full count, so
`copy_file` returns success, but the destination file exists and is empty. -/
theorem copy_file_reports_success_on_lost_flush :
    node_at Env.calm.cwd ex_tree "/home/u/src/a/x".toList = some (Node.file "first".toList) ∧
    (copy_file ex_env_lost_flush ex_tree "/home/u/src/a/x".toList
      "/home/u/dst/x".toList).1 = true ∧
    node_at Env.calm.cwd (copy_file ex_env_lost_flush ex_tree "/home/u/src/a/x".toList
      "/home/u/dst/x".toList).2 "/home/u/dst/x".toList = some (Node.file []) := by
  decide

/-- The early returns of `copy_file`: when the source cannot be opened, failure is
reported and a destination file that was there before is still there. -/
theorem copy_file_failure_leaves_old_destination :
    (copy_file ex_env_no_read ex_tree_old_dest "/home/u/src/a/x".toList
      "/home/u/dst/x".toList).1 = false ∧
    node_at Env.calm.cwd (copy_file ex_env_no_read ex_tree_old_dest "/home/u/src/a/x".toList
      "/home/u/dst/x".toList).2 "/home/u/dst/x".toList = some (Node.file "old".toList) := by
  decide

/-- A write error is caught: the copy reports failure and the partial file is removed. -/
theorem copy_file_short_write_removes_destination :
    (copy_file ex_env_short_write ex_tree "/home/u/src/a/x".toList
      "/home/u/dst/x".toList).1 = false ∧
    node_at Env.calm.cwd (copy_file ex_env_short_write ex_tree "/home/u/src/a/x".toList
      "/home/u/dst/x".toList).2 "/home/u/dst/x".toList = none := by
  decide

/-! ## `dirname` and `create_directory` -/

theorem dropTrailing_length_le (p : Char → Bool) (s : CStr) :
    (dropTrailing p s).length ≤ s.length := by
  unfold dropTrailing
  rw [List.length_reverse]
  have := (List.dropWhile_sublist p (l := s.reverse)).length_le
  simpa using this

theorem is_root_or_dot_dot : is_root_or_dot ['.'] = true := by decide

theorem is_root_or_dot_slash : is_root_or_dot ['/'] = true := by decide

theorem is_root_or_dot_slash_slash : is_root_or_dot ['/', '/'] = true := by decide

/-- The result of `dirname` either always exists (`.` or the root) or is strictly shorter
than the path. -/
theorem dirname_shorter (path : CStr) :
    is_root_or_dot (dirname path) = true ∨ (dirname path).length < path.length := by
  unfold dirname
  simp only
  split_ifs with h1 h2 h3 h4 h5 h6
  · exact Or.inl is_root_or_dot_dot
  · exact Or.inl is_root_or_dot_slash_slash
  · exact Or.inl is_root_or_dot_slash
  · exact Or.inl is_root_or_dot_dot
  · exact Or.inl is_root_or_dot_slash_slash
  · exact Or.inl is_root_or_dot_slash
  · right
    have hd := dropTrailing_length_le (fun c => c == '/')
      (dropTrailing (fun c => c != '/') (dropTrailing (fun c => c == '/') path))
    have hs := dropTrailing_length_le (fun c => c == '/') path
    have hb : (dropTrailing (fun c => c != '/') (dropTrailing (fun c => c == '/') path)).length
        < (dropTrailing (fun c => c == '/') path).length := by
      unfold dropTrailing at h1 ⊢
      simp only [List.reverse_reverse, List.length_reverse]
      have hne : List.dropWhile (fun c => c == '/') path.reverse ≠ [] := by
        intro e; apply h1; rw [e]; rfl
      have hhead := List.head_dropWhile_not (fun c => c == '/') path.reverse hne
      cases hr : List.dropWhile (fun c => c == '/') path.reverse with
      | nil => exact absurd hr hne
      | cons x rest =>
        simp only [hr, List.head_cons] at hhead
        have hx : (x != '/') = true := by simp [bne, hhead]
        rw [List.dropWhile_cons, if_pos hx]
        have := (List.dropWhile_sublist (fun c => c != '/') (l := rest)).length_le
        simp only [List.length_cons]
        omega
    omega

theorem access_root_or_dot (env : Env) (fs : FS) (p : CStr) (h : is_root_or_dot p = true) :
    access env fs p = 0 := by
  unfold access stat
  rw [if_pos h]

/-- With a counter larger than the length of the path, `create_directory_aux` returns. -/
theorem create_directory_aux_isSome (env : Env) (fuel : Nat) (fs : FS) (path : CStr)
    (h : path.length < fuel) : (create_directory_aux env fuel fs path).isSome = true := by
  induction fuel generalizing fs path with
  | zero => omega
  | succ fuel ih =>
    unfold create_directory_aux
    simp only
    by_cases ha : access env fs (dirname path) ≠ 0
    · rw [if_pos ha]
      have hlen : (dirname path).length < fuel := by
        rcases dirname_shorter path with hroot | hlt
        · exact absurd (access_root_or_dot env fs _ hroot) ha
        · omega
      have hsome := ih fs (dirname path) hlen
      cases hr : create_directory_aux env fuel fs (dirname path) with
      | none => rw [hr] at hsome; simp at hsome
      | some r =>
        obtain ⟨b, fs1⟩ := r
        cases b
        · rfl
        · simp only
          cases mkdir env fs1 path <;> rfl
    · rw [if_neg ha]
      simp only
      cases mkdir env fs path <;> rfl

/-- The function `create_directory` is total: its result is the one `create_directory_aux`
computes with a sufficient counter. -/
theorem create_directory_eq (env : Env) (fs : FS) (path : CStr) :
    create_directory_aux env (strlen path + 1) fs path
      = some (create_directory env fs (some path)) := by
  have h := create_directory_aux_isSome env (strlen path + 1) fs path (by unfold strlen; omega)
  unfold create_directory
  cases hr : create_directory_aux env (strlen path + 1) fs path with
  | none => rw [hr] at h; simp at h
  | some r => simp [hr]

theorem node_at_of_lookup (cwd : CStr) (fs : FS) (p k : CStr) (n : Node)
    (h : lookup cwd fs p = Lookup.found k n) : node_at cwd fs p = some n := by
  unfold node_at
  rw [h]

theorem key_at_of_found (cwd : CStr) (fs : FS) (p k : CStr) (n : Node)
    (h : lookup cwd fs p = Lookup.found k n) : key_at cwd fs p = some k := by
  unfold key_at
  rw [h]

/-- C2 (the code at the failing input): moving the example tree, in which `a/x` and `b/x`
share a file name, succeeds with exit status 0 and removes the source root, but both files
were sent to `/home/u/dst/x`: the destination holds only the bytes of `b/x`, nothing
exists at the mirrored paths, and the bytes of `a/x` are nowhere in the file system. -/
theorem move_loses_file_with_shared_name :
    (main (Sys.snapshot (some ex_home) Env.calm) ex_tree ex_mv_argv).1 = 0 ∧
    (main (Sys.snapshot (some ex_home) Env.calm) ex_tree ex_mv_argv).2.g_error_occurred
      = false ∧
    mv_dest_path ex_mv_cfg "/home/u/src/a/x".toList = "/home/u/dst/x".toList ∧
    mv_dest_path ex_mv_cfg "/home/u/src/b/x".toList = "/home/u/dst/x".toList ∧
    fs_find ex_tree "/home/u/src/a/x".toList = some (Node.file "first".toList) ∧
    fs_find (main (Sys.snapshot (some ex_home) Env.calm) ex_tree ex_mv_argv).2.fs
      "/home/u/src".toList = none ∧
    fs_find (main (Sys.snapshot (some ex_home) Env.calm) ex_tree ex_mv_argv).2.fs
      "/home/u/dst/x".toList = some (Node.file "second".toList) ∧
    fs_find (main (Sys.snapshot (some ex_home) Env.calm) ex_tree ex_mv_argv).2.fs
      "/home/u/dst/a/x".toList = none ∧
    (main (Sys.snapshot (some ex_home) Env.calm) ex_tree ex_mv_argv).2.fs.all
      (fun e => decide (e.2 ≠ Node.file "first".toList)) = true := by
  decide

/-! ## The callback never aborts the walk -/

/-- C8: the callback returns the continue code 0 for every command, entry and outcome, so
the walk goes on with the next entry; an unreadable directory or an entry that cannot be
stat-ed sets the error flag and nothing else; a negative file size under `-fs`, a failed
directory creation or file copy under `-cp`, a failed move (rename and copy both fail) or
directory creation under `-mv`, and a failed unlink under `-del` set the error flag, leave
the counters and the output alone, and end the handling of that entry.  The two helpers
that loop do return: the counters bounding `create_directory` and the copy loop never run
out. -/
theorem handler_never_aborts (cfg : Config) (s : State) (v : Visit) :
    (tree_walker cfg s v).1 = 0 ∧
    (∀ vs, walk cfg s (v :: vs) = walk cfg (tree_walker cfg s v).2 vs) ∧
    (v.typeflag = FTW_DNR ∨ v.typeflag = FTW_NS →
      (tree_walker cfg s v).2 = { s with g_error_occurred := true }) ∧
    (strcmp cfg.g_command "-fs".toList = 0 → v.typeflag = FTW_F → v.st_size < 0 →
      (tree_walker cfg s v).2 = { s with g_error_occurred := true }) ∧
    (strcmp cfg.g_command "-cp".toList = 0 → v.typeflag = FTW_D →
      strlen (cp_dest_path cfg v.path) < PATH_MAX →
      (create_directory v.env s.fs (some (cp_dest_path cfg v.path))).1 = false →
      (tree_walker cfg s v).2 =
        { s with
          fs := (create_directory v.env s.fs (some (cp_dest_path cfg v.path))).2,
          g_error_occurred := true }) ∧
    (strcmp cfg.g_command "-cp".toList = 0 → v.typeflag = FTW_F →
      strlen (cp_dest_path cfg v.path) < PATH_MAX →
      ¬ (cfg.g_extension.isSome ∧ has_extension (some v.path) cfg.g_extension = true) →
      (copy_file v.env s.fs v.path (cp_dest_path cfg v.path)).1 = false →
      (tree_walker cfg s v).2 =
        { s with
          fs := (copy_file v.env s.fs v.path (cp_dest_path cfg v.path)).2,
          g_error_occurred := true }) ∧
    (strcmp cfg.g_command "-mv".toList = 0 → v.typeflag = FTW_F →
      strlen (mv_dest_path cfg v.path) < PATH_MAX →
      rename v.env s.fs v.path (mv_dest_path cfg v.path) = none →
      (copy_file v.env s.fs v.path (mv_dest_path cfg v.path)).1 = false →
      (tree_walker cfg s v).2 =
        { s with
          fs := (copy_file v.env s.fs v.path (mv_dest_path cfg v.path)).2,
          g_error_occurred := true }) ∧
    (strcmp cfg.g_command "-mv".toList = 0 → v.typeflag = FTW_D →
      strlen (mv_dest_path cfg v.path) < PATH_MAX →
      strcmp v.path cfg.g_root_dir ≠ 0 →
      (create_directory v.env s.fs (some (mv_dest_path cfg v.path))).1 = false →
      (tree_walker cfg s v).2 =
        { s with
          fs := (create_directory v.env s.fs (some (mv_dest_path cfg v.path))).2,
          g_error_occurred := true }) ∧
    (strcmp cfg.g_command "-del".toList = 0 → v.typeflag = FTW_F →
      has_extension (some v.path) cfg.g_extension = true →
      unlink v.env s.fs v.path = none →
      (tree_walker cfg s v).2 = { s with g_error_occurred := true }) ∧
    (∀ (env : Env) (fs : FS) (path : CStr),
      create_directory_aux env (strlen path + 1) fs path
        = some (create_directory env fs (some path))) ∧
    (∀ (wlimit : Option Nat) (fuel : Nat) (input out : List Char), input.length ≤ fuel →
      copy_loop wlimit fuel input out = copy_loop wlimit input.length input out) := by
  refine ⟨tree_walker_returns_zero cfg s v, fun vs => walk_cons cfg s v vs, ?_, ?_, ?_, ?_, ?_,
    ?_, ?_, fun env fs path => create_directory_eq env fs path,
    fun wlimit fuel input out h => copy_loop_fuel wlimit fuel _ input out h (le_refl _)⟩
  · intro h
    rw [tree_walker_error_entry cfg s v h]
  · intro hc hf hneg
    rw [tree_walker_of_fs cfg s v hc (Or.inl hf)]
    unfold tree_walker_fs
    rw [if_pos hf, if_pos hneg]
  · intro hc hd hlen hfail
    rw [tree_walker_of_cp cfg s v hc (Or.inr hd), tree_walker_cp_dir cfg s v hlen hd, hfail]
    simp
  · intro hc hf hlen hx hfail
    rw [tree_walker_of_cp cfg s v hc (Or.inl hf), tree_walker_cp_file cfg s v hlen hf hx, hfail]
    simp
  · intro hc hf hlen hren hfail
    rw [tree_walker_of_mv cfg s v hc (Or.inl hf), tree_walker_mv_file_copied cfg s v hlen hf hren,
      hfail]
    simp
  · intro hc hd hlen hroot hfail
    rw [tree_walker_of_mv cfg s v hc (Or.inr hd), tree_walker_mv_dir cfg s v hlen hd hroot, hfail]
    simp
  · intro hc hf hext hun
    rw [tree_walker_of_del cfg s v hc (Or.inl hf)]
    unfold tree_walker_del
    rw [if_pos ⟨hf, hext⟩, hun]


/-- C8, at the entry `b/x` of the example tree, which can be neither renamed nor read: the
callback returns 0 and sets the error flag. -/
theorem handler_never_aborts_witness :
    (tree_walker ex_mv_cfg (State.start ex_tree)
      (ex_file_visit ex_env_locked "/home/u/src/b/x".toList)).1 = 0 ∧
    (tree_walker ex_mv_cfg (State.start ex_tree)
      (ex_file_visit ex_env_locked "/home/u/src/b/x".toList)).2.g_error_occurred = true := by
  refine ⟨(handler_never_aborts _ _ _).1, ?_⟩
  have h := (handler_never_aborts ex_mv_cfg (State.start ex_tree)
    (ex_file_visit ex_env_locked "/home/u/src/b/x".toList)).2.2.2.2.2.2.1
    (by decide) rfl (by decide) (by decide) (by decide)
  rw [h]

/-- C7 (amended), on the example move whose cleanup fails: no entry fails, the command is a
move and `remove_directory` fails, so the exit status is 1. -/
theorem sticky_flag_and_exit_status_witness :
    (run (Sys.snapshot (some ex_home) ex_env_no_remove) ex_mv_cfg ex_tree).1 = 1 := by
  rw [(sticky_flag_and_exit_status (Sys.snapshot (some ex_home) ex_env_no_remove) ex_mv_cfg
    ex_tree).2.2 (by decide)]
  decide

/-- C10, at a `.c` file below a directory whose name contains a dot. -/
theorem extension_test_sees_last_component_witness :
    '/' ∉ ".c".toList ∧
    lastComponent "/home/u/v1.2/main.c".toList = "main.c".toList ∧
    has_extension (some "/home/u/v1.2/main.c".toList) (some ".c".toList)
      = has_extension (some (lastComponent "/home/u/v1.2/main.c".toList)) (some ".c".toList) :=
  ⟨by decide, by decide,
    (extension_test_sees_last_component ex_cp_cfg (State.start ex_tree)
      (ex_file_visit Env.calm "/home/u/v1.2/main.c".toList)).1 _ _ (by decide)⟩

/-! ## Further facts -/

/-- What `validate_directory` does check about `HOME`: it rejects when `HOME` is unset and
when `HOME` is not a leading part of the path, whatever `stat` reports. -/
theorem validate_directory_rejects (home : Option CStr) (env : Env) (fs : FS) (path : CStr) :
    (home = none → validate_directory home env fs (some path) = false) ∧
    (∀ h, home = some h → (¬ ∃ t, path = h ++ t) →
      validate_directory home env fs (some path) = false) := by
  refine ⟨fun h0 => ?_, fun h hh hpre => ?_⟩
  · subst h0
    unfold validate_directory
    simp only
    split_ifs
    · rfl
    · split
      · split_ifs <;> rfl
      · rfl
  · subst hh
    have hne : strncmp path h (strlen h) ≠ 0 := fun e => hpre ((strncmp_eq_zero path h).mp e)
    unfold validate_directory
    simp only
    split_ifs
    · rfl
    · split
      · split_ifs <;> rfl
      · rfl

/-- After a successful `setup`, `main` is `run` on the globals and file system `setup`
leaves. -/
theorem main_eq_run (sys : Sys) (fs fs1 : FS) (argv : List CStr) (cfg : Config)
    (h : setup sys fs argv = (some cfg, fs1)) : main sys fs argv = run sys cfg fs1 := by
  unfold main
  rw [h]

/-- Why the source and the destination must differ: copying a file onto itself reports
success and leaves it empty. -/
theorem copy_file_onto_itself :
    (copy_file Env.calm ex_tree "/home/u/src/a/x".toList "/home/u/src/./a/x".toList).1 = true ∧
    node_at Env.calm.cwd (copy_file Env.calm ex_tree "/home/u/src/a/x".toList
      "/home/u/src/./a/x".toList).2 "/home/u/src/a/x".toList = some (Node.file []) := by
  decide

/-- Path names are resolved, not compared: with the root given as `/home/u/./src` the
failed move of the example still renames `a/x` away (the key `/home/u/src/a/x` is recorded
as renamed and is gone afterwards), while `b/x`, whose move failed, stays. -/
theorem move_failure_with_dotted_root :
    (main (Sys.snapshot (some ex_home) ex_env_locked) ex_tree ex_mv_argv_dotted).1 = 1 ∧
    renamed_away { ex_mv_cfg with g_root_dir := "/home/u/./src".toList } (State.start ex_tree)
      ((Sys.snapshot (some ex_home) ex_env_locked).traversal ex_tree
        "/home/u/./src".toList).1 = ["/home/u/src/a/x".toList] ∧
    fs_find (main (Sys.snapshot (some ex_home) ex_env_locked) ex_tree ex_mv_argv_dotted).2.fs
      "/home/u/src/a/x".toList = none ∧
    fs_find (main (Sys.snapshot (some ex_home) ex_env_locked) ex_tree ex_mv_argv_dotted).2.fs
      "/home/u/src/b/x".toList = some (Node.file "second".toList) := by
  decide

/-- Path resolution walks the components as the kernel does: `.` stays, `..` goes up, a
component below a regular file or a missing directory fails, and a relative name starts at
the working directory. -/
theorem resolve_examples :
    lookup "/".toList ex_tree "/home/u/./src/../src/a/x".toList
      = Lookup.found "/home/u/src/a/x".toList (Node.file "first".toList) ∧
    lookup "/".toList ex_tree "/home/u/nowhere/../src".toList = Lookup.enoent ∧
    lookup "/".toList ex_tree "/home/u/src/a/x/..".toList = Lookup.enotdir ∧
    lookup "/home/u".toList ex_tree "src//b/".toList
      = Lookup.found "/home/u/src/b".toList Node.dir ∧
    lookup "/home/u".toList ex_tree "../u/dst/new".toList
      = Lookup.absent "/home/u/dst/new".toList ∧
    validate_directory (some ex_home) Env.calm ex_tree (some "/home/u/./src".toList) = true := by
  decide

/-- The copy fallback leaves the source file in place: when every `rename` fails and `b/x`
cannot be read, `a/x` is copied to the destination and is still in the source after the
failed run; nothing was renamed away. -/
theorem move_failure_after_copy_fallback :
    (main (Sys.snapshot (some ex_home) ex_env_cross_device) ex_tree ex_mv_argv).1 = 1 ∧
    renamed_away ex_mv_cfg (State.start ex_tree)
      ((Sys.snapshot (some ex_home) ex_env_cross_device).traversal ex_tree
        ex_mv_cfg.g_root_dir).1 = [] ∧
    fs_find (main (Sys.snapshot (some ex_home) ex_env_cross_device) ex_tree ex_mv_argv).2.fs
      "/home/u/src/a/x".toList = some (Node.file "first".toList) ∧
    fs_find (main (Sys.snapshot (some ex_home) ex_env_cross_device) ex_tree ex_mv_argv).2.fs
      "/home/u/dst/x".toList = some (Node.file "first".toList) ∧
    fs_find (main (Sys.snapshot (some ex_home) ex_env_cross_device) ex_tree ex_mv_argv).2.fs
      "/home/u/src/b/x".toList = some (Node.file "second".toList) := by
  decide

/-! ## What `copy_file` does guarantee -/

theorem dirs_kept_erase (cwd : CStr) (fs : FS) (kd : CStr)
    (hnd : ¬ fs_find fs kd = some Node.dir) (k2 : CStr)
    (h : node_key cwd fs k2 = some Node.dir) :
    node_key cwd (fs_erase fs kd) k2 = some Node.dir := by
  unfold node_key at h ⊢
  by_cases hp : is_permanent cwd k2 = true
  · rw [if_pos hp]
  · rw [if_neg hp] at h ⊢
    have hne : ¬ kd = k2 := fun e => hnd (by rw [e]; exact h)
    rw [fs_find_erase, if_neg hne]
    exact h

theorem lookup_after_erase (cwd : CStr) (fs fs2 : FS) (p k : CStr)
    (hres : resolve cwd fs p = reached cwd fs k) (hperm : is_permanent cwd k = false)
    (hdir : ∀ k2, node_key cwd fs k2 = some Node.dir → node_key cwd fs2 k2 = some Node.dir)
    (hgone : fs_find fs2 k = none) : lookup cwd fs2 p = Lookup.absent k := by
  have h2 := resolve_mono cwd fs fs2 hdir p k hres
  have hnode : node_key cwd fs2 k = none := by
    unfold node_key
    rw [hperm]
    simpa using hgone
  unfold lookup
  rw [h2]
  unfold reached
  rw [hnode]

theorem fopen_read_some (env : Env) (fs : FS) (src ks : CStr)
    (h : fopen_read env fs src = some ks) :
    key_at env.cwd fs src = some ks ∧ node_at env.cwd fs src = node_key env.cwd fs ks := by
  unfold fopen_read at h
  by_cases hf : env.fopen_read_fails src = true
  · rw [if_pos hf] at h; cases h
  rw [if_neg hf] at h
  cases hl : lookup env.cwd fs src with
  | found k n =>
    rw [hl] at h
    simp only [Option.some.injEq] at h
    subst h
    refine ⟨key_at_of_found _ _ _ _ _ hl, ?_⟩
    rw [node_at_of_lookup _ _ _ _ _ hl]
    cases n with
    | file c =>
      obtain ⟨-, -, hp, hfind⟩ := lookup_found_file env.cwd fs src k c hl
      unfold node_key
      rw [hp]
      simpa using hfind.symm
    | dir =>
      unfold lookup at hl
      cases hr : resolve env.cwd fs src with
      | found k2 m =>
        rw [hr] at hl
        cases m with
        | file d =>
          simp only at hl
          split_ifs at hl
          simp at hl
        | dir =>
          simp only [Lookup.found.injEq] at hl
          have hres := resolve_reached env.cwd fs src k2 (Or.inl ⟨_, hr⟩)
          rw [hres] at hr
          unfold reached at hr
          cases hn : node_key env.cwd fs k2 with
          | none => rw [hn] at hr; cases hr
          | some m2 =>
            rw [hn] at hr
            simp only [Lookup.found.injEq] at hr
            rw [← hl.1, hn, hr.2]
      | absent k2 => rw [hr] at hl; cases hl
      | enoent => rw [hr] at hl; cases hl
      | enotdir => rw [hr] at hl; cases hl
  | absent k => rw [hl] at h; cases h
  | enoent => rw [hl] at h; cases h
  | enotdir => rw [hl] at h; cases h

theorem source_stream_ok (env : Env) (fs : FS) (k p : CStr)
    (h : (source_stream env fs k p).2 = false) :
    node_key env.cwd fs k = some (Node.file (source_stream env fs k p).1) := by
  unfold source_stream at h ⊢
  cases hn : node_key env.cwd fs k with
  | none => rw [hn] at h; simp at h
  | some n =>
    cases n with
    | dir => rw [hn] at h; simp at h
    | file c =>
      rw [hn] at h
      simp only at h ⊢
      cases he : env.read_error_after p with
      | none => rfl
      | some j => rw [he] at h; simp at h

/-- What `copy_file` guarantees when the calls whose results it ignores succeed: an open
failure changes nothing; only the key of the destination can change; a reported success
leaves at the destination the bytes of the (different) source, if the flush at `fclose`
loses nothing; a reported failure after both opens leaves no destination file, if the
`unlink` succeeds. -/
theorem copy_file_outcome (env : Env) (fs : FS) (src dst : CStr) :
    ((fopen_read env fs src = none ∨ fopen_write env fs dst = none) →
      copy_file env fs src dst = (false, fs)) ∧
    (∀ k, ¬ key_at env.cwd fs dst = some k →
      fs_find (copy_file env fs src dst).2 k = fs_find fs k) ∧
    ((copy_file env fs src dst).1 = true → env.flush_delivers dst = none →
      ¬ key_at env.cwd fs src = key_at env.cwd fs dst →
      ∃ c, node_at env.cwd fs src = some (Node.file c) ∧
        node_at env.cwd (copy_file env fs src dst).2 dst = some (Node.file c)) ∧
    (fopen_read env fs src ≠ none → fopen_write env fs dst ≠ none →
      (copy_file env fs src dst).1 = false → env.unlink_fails dst = false →
      node_at env.cwd (copy_file env fs src dst).2 dst = none) := by
  refine ⟨copy_file_not_opened env fs src dst, fun k hk => copy_file_frame env fs src dst k hk,
    ?_, ?_⟩
  · intro hok hflush hne
    cases hr : fopen_read env fs src with
    | none =>
      rw [copy_file_not_opened env fs src dst (Or.inl hr)] at hok
      simp at hok
    | some ks =>
      cases hw : fopen_write env fs dst with
      | none =>
        rw [copy_file_not_opened env fs src dst (Or.inr hw)] at hok
        simp at hok
      | some r =>
        obtain ⟨kd, fs1⟩ := r
        obtain ⟨hfs1, hres, hnd, hperm, hdir, hkey⟩ := fopen_write_some env fs fs1 dst kd hw
        obtain ⟨hks, hnode⟩ := fopen_read_some env fs src ks hr
        have hkk : ¬ kd = ks := fun e => hne (by rw [hks, hkey, e])
        rw [copy_file_opened env fs fs1 src dst ks kd hr hw] at hok ⊢
        unfold copy_opened at hok ⊢
        simp only at hok ⊢
        split_ifs at hok ⊢ with hs
        simp only [Bool.and_eq_true, Bool.not_eq_true'] at hs
        obtain ⟨hloop, hferr⟩ := hs
        have hsrc := source_stream_ok env fs1 ks src hferr
        have hsame : node_key env.cwd fs1 ks = node_key env.cwd fs ks := by
          unfold node_key
          rw [hfs1, fs_find_put, if_neg hkk]
        rw [hsame, ← hnode] at hsrc
        refine ⟨_, hsrc, ?_⟩
        have hacc := copy_loop_true _ _ _ [] (le_refl _) hloop
        simp only [List.nil_append] at hacc
        simp only
        rw [hacc]
        unfold flushed
        rw [hflush]
        simp only
        apply node_at_of_lookup _ _ _ kd
        subst hfs1
        apply lookup_after_put env.cwd fs _ dst kd _ hres hnd hperm
        · intro k2 h2
          apply dirs_kept_put
          · rw [fs_find_put, if_pos rfl]; simp
          · exact dirs_kept_put env.cwd fs kd _ hdir k2 h2
        · rw [fs_find_put, if_pos rfl]
  · intro hr hw hfail hunlink
    cases hr1 : fopen_read env fs src with
    | none => exact absurd hr1 hr
    | some ks =>
      cases hw1 : fopen_write env fs dst with
      | none => exact absurd hw1 hw
      | some r =>
        obtain ⟨kd, fs1⟩ := r
        obtain ⟨hfs1, hres, hnd, hperm, hdir, hkey⟩ := fopen_write_some env fs fs1 dst kd hw1
        rw [copy_file_opened env fs fs1 src dst ks kd hr1 hw1] at hfail ⊢
        unfold copy_opened at hfail ⊢
        simp only at hfail ⊢
        split_ifs at hfail ⊢ with hs
        simp only
        subst hfs1
        rw [unlink_after_write env fs dst kd _ hres hnd hperm hdir, if_neg (by simp [hunlink])]
        simp only [Option.getD_some]
        have hl := lookup_after_erase env.cwd fs
          (fs_erase (fs_put (fs_put fs kd (Node.file [])) kd (Node.file
            (flushed env dst (copy_loop (env.fwrite_accepts dst)
              (source_stream env (fs_put fs kd (Node.file [])) ks src).1.length
              (source_stream env (fs_put fs kd (Node.file [])) ks src).1 []).2))) kd)
          dst kd hres hperm
          (by
            intro k2 h2
            apply dirs_kept_erase
            · rw [fs_find_put, if_pos rfl]; simp
            · apply dirs_kept_put
              · rw [fs_find_put, if_pos rfl]; simp
              · exact dirs_kept_put env.cwd fs kd _ hdir k2 h2)
          (by rw [fs_find_erase, if_pos rfl])
        unfold node_at
        rw [hl]

end FileFlow
